import Mathlib

/-! A 16-register processor simulator (`index.cpp`)

Shallow embedding of the simulator's state (`Instruction`, `MemoryAddress`,
`Processor`) and of its operations (`iload`, `dload`, `reg_init`, the body of the
`do … while` loop of `Processor::start`, the loop itself, and the text written by
`generateDump`), followed by the properties established about them.

Conventions of the embedding

* A bit-field of width `w` is a `Fin (2^w)`; a value stored into it is reduced
  modulo `2^w` explicitly (`toField4`, `toAddress`).
* `Data` (`signed short`) is an `Int`, `DataElement` (`unsigned char`) a `Nat`;
  every store converts explicitly (`toData`, `toDataElement`).  The ranges are
  recorded by `Processor.WF`.
* C++ evaluates all arithmetic in `int`; since every operand is a 16-bit (or
  narrower) quantity the `int` results are exact, so they are plain `Int`
  expressions here and only the conversions wrap.
* An access outside `DataMemory[0..511]` is undefined behaviour in the source;
  the embedding returns `none` there.
-/

namespace ProcSim

/-! ## Size limits and instruction reference -/

/-- Number of instruction slots (`MAX_IMEM_SIZE`). -/
abbrev MAX_IMEM_SIZE : Nat := 256
/-- Number of data bytes (`MAX_DMEM_SIZE`). -/
abbrev MAX_DMEM_SIZE : Nat := 512
/-- Number of registers (`MAX_REGS`). -/
abbrev MAX_REGS : Nat := 16

/-- Opcode `ADD`. -/
abbrev ADD : Nat := 0
/-- Opcode `ADDI`. -/
abbrev ADDI : Nat := 1
/-- Opcode `SUB`. -/
abbrev SUB : Nat := 2
/-- Opcode `SUBI`. -/
abbrev SUBI : Nat := 3
/-- Opcode `MUL`. -/
abbrev MUL : Nat := 6
/-- Opcode `MULI`. -/
abbrev MULI : Nat := 7
/-- Opcode `LD`. -/
abbrev LD : Nat := 8
/-- Opcode `SD`. -/
abbrev SD : Nat := 10
/-- Opcode `JMP`. -/
abbrev JMP : Nat := 12
/-- Opcode `BEQZ`. -/
abbrev BEQZ : Nat := 13
/-- Opcode `HLT`. -/
abbrev HLT : Nat := 14

/-! ## Integer conversions -/

/-- Conversion of an `int` to `Data` (`signed short`): reduction modulo `2^16`
into `[-32768, 32767]`. -/
def toData (x : Int) : Int := (x + 32768) % 65536 - 32768

/-- Conversion of an `int` to `unsigned short`: reduction modulo `2^16`. -/
def toUShort (x : Int) : Nat := (x % 65536).toNat

/-- Conversion of an `int` to `DataElement` (`unsigned char`): reduction modulo `2^8`. -/
def toDataElement (x : Int) : Nat := (x % 256).toNat

/-- Store of an `int` into a 4-bit bit-field: reduction modulo `2^4`. -/
def toField4 (x : Int) : Fin 16 := ⟨(x % 16).toNat, by omega⟩

/-- Store of an `int` into the 1-bit bit-field `isData`: reduction modulo `2`. -/
def toField1 (x : Int) : Fin 2 := ⟨(x % 2).toNat, by omega⟩

/-- Store of an `int` into the 9-bit bit-field `address`: reduction modulo `2^9`. -/
def toAddress (x : Int) : Fin 512 := ⟨(x % 512).toNat, by omega⟩

/-- The 32-bit two's-complement pattern of an `int`. -/
def intBits (x : Int) : Nat := (x % 4294967296).toNat

/-- The `int` denoted by a 32-bit two's-complement pattern. -/
def ofIntBits (n : Nat) : Int := if n < 2147483648 then (n : Int) else (n : Int) - 4294967296

/-- The operator `|` on two `int`s: bitwise or of the two's-complement patterns. -/
def intOr (a b : Int) : Int := ofIntBits (intBits a ||| intBits b)

/-- The operator `&` on two `int`s: bitwise and of the two's-complement patterns. -/
def intAnd (a b : Int) : Int := ofIntBits (intBits a &&& intBits b)

/-! ## Two's-complement macros -/

/-- The macro `TWOCOMP(x)`, `(((x)>7)?x-16:x)`.  Both uses pass the single operand
`IR->op3`, so the textual expansion is the function below on its `int` value. -/
def TWOCOMP (x : Int) : Int := if x > 7 then x - 16 else x

/-- The macro `TWOCOMP2(x)`, `(((x)>127)?x-256:x)`, textually expanded on the argument
both uses pass, `(((unsigned short) (IR->op2)) << 4) | IR->op3`.  The argument is not
parenthesised in `x-256`, and `-` binds tighter than `|`, so the second branch is
`(op2 << 4) | (op3 - 256)`. -/
def TWOCOMP2 (op2 op3 : Fin 16) : Int :=
  if intOr ((op2.val <<< 4 : Nat) : Int) (op3.val : Int) > 127 then
    intOr ((op2.val <<< 4 : Nat) : Int) ((op3.val : Int) - 256)
  else
    intOr ((op2.val <<< 4 : Nat) : Int) (op3.val : Int)

/-! ## Data model -/

/-- The struct `Instruction`: four 4-bit bit-fields. -/
structure Instruction where
  opcode : Fin 16
  op1 : Fin 16
  op2 : Fin 16
  op3 : Fin 16
deriving DecidableEq, Repr

/-- The default constructor `Instruction()` (and `reset()`): all fields zero. -/
def Instruction.reset : Instruction := ⟨0, 0, 0, 0⟩

/-- The constructor `Instruction(int op, int o1, int o2, int o3)`: each argument is
truncated to its 4-bit field. -/
def Instruction.make (op o1 o2 o3 : Int) : Instruction :=
  ⟨toField4 op, toField4 o1, toField4 o2, toField4 o3⟩

/-- The struct `MemoryAddress`: a 1-bit segment flag and a 9-bit address. -/
structure MemoryAddress where
  isData : Fin 2
  address : Fin 512
deriving DecidableEq, Repr

/-- The default constructor `MemoryAddress()` (and `reset()`). -/
def MemoryAddress.reset : MemoryAddress := ⟨0, 0⟩

/-- The constructor `MemoryAddress(int iD, int add)`. -/
def MemoryAddress.make (iD add : Int) : MemoryAddress := ⟨toField1 iD, toAddress add⟩

/-- The data members of class `Processor`.  `IR` points into `InstrMemory`, so it is the
index of the slot it points at. -/
structure Processor where
  IR : Fin 256
  PC : MemoryAddress
  DataMemory : Fin 512 → Nat
  InstrMemory : Fin 256 → Instruction
  RegisterFile : Fin 16 → Int

/-- Range invariant of the stored values: registers are `signed short`, data cells are
`unsigned char`. -/
def Processor.WF (p : Processor) : Prop :=
  (∀ r, -32768 ≤ p.RegisterFile r ∧ p.RegisterFile r ≤ 32767) ∧ (∀ a, p.DataMemory a < 256)

/-- The constructor `Processor()`: `IR` at slot 0, `PC` reset, all memories and
registers zero. -/
def Processor.init : Processor where
  IR := 0
  PC := MemoryAddress.reset
  DataMemory := fun _ => 0
  InstrMemory := fun _ => Instruction.reset
  RegisterFile := fun _ => 0

/-! ## Loader operations -/

/-- The method `iload`: rejects an odd address with `-1`, otherwise stores the
instruction in slot `addr.address >> 1` and returns `0`. -/
def iload (p : Processor) (addr : MemoryAddress) (i : Instruction) : Int × Processor :=
  if addr.address.val % 2 ≠ 0 then (-1, p)
  else
    let slot : Fin 256 := ⟨addr.address.val >>> 1, by
      have h := addr.address.isLt
      rw [Nat.shiftRight_eq_div_pow]; omega⟩
    (0, { p with InstrMemory := Function.update p.InstrMemory slot i })

/-- The method `reg_init`: ignores a register number above 15, otherwise sets the
register. -/
def reg_init (p : Processor) (regAddr : Nat) (val : Int) : Processor :=
  if h : regAddr > 15 then p
  else { p with RegisterFile := Function.update p.RegisterFile ⟨regAddr, by omega⟩ val }

/-- The method `dload`: stores `(val >> 8) & 0xff` at `addr.address` and `val & 0xff` at
`addr.address + 1` (`>>` on a negative `int` is the arithmetic shift).  `none` is a store
outside `DataMemory`. -/
def dload (p : Processor) (addr : MemoryAddress) (val : Int) : Option Processor :=
  if h : addr.address.val + 1 < 512 then
    let hi := toDataElement (intAnd (val >>> (8 : Nat)) 255)
    let lo := toDataElement (intAnd val 255)
    let mem := Function.update p.DataMemory addr.address hi
    some { p with DataMemory := Function.update mem ⟨addr.address.val + 1, h⟩ lo }
  else none

/-- The register loop of `InitializeProcessor`: `reg_init(i, val)` for `i = 0 … 15`, the
scanned `int` converted to `Data`. -/
def loadRegisters (p : Processor) (vals : Fin 16 → Int) : Processor :=
  (List.finRange 16).foldl (fun s i => reg_init s i.val (toData (vals i))) p

/-- The data loop of `InitializeProcessor`: `dload(MemoryAddress(1, address-512), value)`
for each scanned pair, the value converted to `Data`. -/
def loadData (p : Processor) : List (Int × Int) → Option Processor
  | [] => some p
  | (address, value) :: rest =>
    (dload p (MemoryAddress.make 1 (address - 512)) (toData value)).bind
      (fun s => loadData s rest)

/-- The instruction loop of `InitializeProcessor`: each scanned record is loaded with
`iload` at successive even addresses from `address` on; the result of `iload` is ignored. -/
def loadInstructions (p : Processor) (address : Int) : List (Int × Int × Int × Int) → Processor
  | [] => p
  | (opcode, op1, op2, op3) :: rest =>
    loadInstructions
      (iload p (MemoryAddress.make 0 address) (Instruction.make opcode op1 op2 op3)).2
      (address + 2) rest

/-- The function `InitializeProcessor` on an already scanned input: sixteen register
values, the data pairs before the `-1` sentinel and the instruction records before the
`-1` sentinel, loaded into the freshly constructed processor. -/
def InitializeProcessor (regs : Fin 16 → Int) (data : List (Int × Int))
    (prog : List (Int × Int × Int × Int)) : Option Processor :=
  (loadData (loadRegisters Processor.init regs) data).map
    (fun s => loadInstructions s 0 prog)

/-- The instruction slot addressed by the fetch, `PC.address/2`. -/
def fetchIndex (p : Processor) : Fin 256 := ⟨p.PC.address.val / 2, by omega⟩

/-- The instruction the next iteration fetches, `InstrMemory[PC.address/2]`. -/
def fetch (p : Processor) : Instruction := p.InstrMemory (fetchIndex p)

/-! ## The execution loop -/

/-- The state after "Fetch & Increment PC": `IR = &InstrMemory[PC.address/2]` and
`PC.address += 2` (a 9-bit field, so modulo 512). -/
def advance (p : Processor) : Processor :=
  { p with IR := fetchIndex p,
           PC := { p.PC with address := toAddress ((p.PC.address.val : Int) + 2) } }

/-- The assignment `RegisterFile[d] = x` after the fetch: the `int` value `x` is
converted to `Data`. -/
def writeReg (p : Processor) (d : Fin 16) (x : Int) : Processor :=
  { advance p with RegisterFile := Function.update p.RegisterFile d (toData x) }

/-- The statement `PC.address += TWOCOMP2(…) - 2` after the fetch: the sum is formed in
`int` from the already incremented `PC.address` and stored back into the 9-bit field. -/
def branchTo (p : Processor) : Processor :=
  { advance p with PC := { (advance p).PC with address :=
      (toAddress (((advance p).PC.address.val : Int) +
        (TWOCOMP2 (fetch p).op2 (fetch p).op3 - 2))) } }

/-- The two assignments of the SD case after the fetch,
`DataMemory[loc] = ((unsigned short) x) >> 8` and `DataMemory[loc+1] = x`, each value
converted to `DataElement`. -/
def storeData (p : Processor) (loc : Nat) (h : loc + 1 < 512) (x : Int) : Processor :=
  let hi := toDataElement ((toUShort x >>> 8 : Nat) : Int)
  let lo := toDataElement x
  let mem := Function.update p.DataMemory ⟨loc, by omega⟩ hi
  { advance p with DataMemory := Function.update mem ⟨loc + 1, h⟩ lo }

/-- One iteration of the body of the `do … while` loop of `Processor::start`: fetch,
increment `PC`, decode and execute.  `none` is an access outside `DataMemory`. -/
def cycle (p : Processor) : Option Processor :=
  let i := fetch p
  let R := p.RegisterFile
  if i.opcode.val = ADD then some (writeReg p i.op1 (R i.op2 + R i.op3))
  else if i.opcode.val = ADDI then some (writeReg p i.op1 (R i.op2 + TWOCOMP i.op3.val))
  else if i.opcode.val = SUB then some (writeReg p i.op1 (R i.op2 - R i.op3))
  else if i.opcode.val = SUBI then some (writeReg p i.op1 (R i.op2 - TWOCOMP i.op3.val))
  else if i.opcode.val = MUL then some (writeReg p i.op1 (R i.op2 * R i.op3))
  else if i.opcode.val = MULI then some (writeReg p i.op1 (R i.op2 * TWOCOMP i.op3.val))
  else if i.opcode.val = LD then
    let loc := toUShort (R i.op2 + R i.op3 - 512)
    if h : loc + 1 < 512 then
      let hi := p.DataMemory ⟨loc, by omega⟩
      let lo := p.DataMemory ⟨loc + 1, h⟩
      some (writeReg p i.op1 (((hi <<< 8) ||| lo : Nat) : Int))
    else none
  else if i.opcode.val = SD then
    let loc := toUShort (R i.op1 + R i.op2 - 512)
    if h : loc + 1 < 512 then some (storeData p loc h (R i.op3))
    else none
  else if i.opcode.val = JMP then some (branchTo p)
  else if i.opcode.val = BEQZ then
    if R i.op1 = 0 then some (branchTo p) else some (advance p)
  else if i.opcode.val = HLT then some (advance p)
  else some (advance p)

/-- The loop condition `IR->opcode != HLT`, evaluated after an iteration. -/
def continues (p : Processor) : Bool := decide ((p.InstrMemory p.IR).opcode.val ≠ HLT)

/-- What a bounded run of `Processor::start` observes. -/
inductive Outcome where
  /-- The loop ended in this state after this many iterations. -/
  | halted (p : Processor) (iterations : Nat)
  /-- An iteration accessed `DataMemory` out of bounds. -/
  | undefined
  /-- The iteration budget ran out with the loop still running. -/
  | running

/-- The `do … while` loop with an iteration budget; `done` counts the iterations
already executed. -/
def startLoop : Nat → Nat → Processor → Outcome
  | 0, _, _ => Outcome.running
  | fuel + 1, done, p =>
    match cycle p with
    | none => Outcome.undefined
    | some q => if continues q then startLoop fuel (done + 1) q else Outcome.halted q (done + 1)

/-- The method `Processor::start`, run for at most `fuel` iterations. -/
def start (fuel : Nat) (p : Processor) : Outcome := startLoop fuel 0 p

/-- The state after `k` iterations of the loop body, ignoring the loop condition. -/
def iterate : Nat → Processor → Option Processor
  | 0, p => some p
  | k + 1, p => (cycle p).bind (iterate k)

/-- The data-memory access of the next iteration, if it makes one, is inside
`DataMemory`. -/
def accessInRange (p : Processor) : Prop :=
  ((fetch p).opcode.val = LD →
    toUShort (p.RegisterFile (fetch p).op2 + p.RegisterFile (fetch p).op3 - 512) + 1 < 512) ∧
  ((fetch p).opcode.val = SD →
    toUShort (p.RegisterFile (fetch p).op1 + p.RegisterFile (fetch p).op2 - 512) + 1 < 512)

instance (p : Processor) : Decidable (accessInRange p) := by
  unfold accessInRange
  exact inferInstance

/-! ## The memory dump -/

/-- The character a stream prints for one bit of a `bitset`. -/
def bitChar (b : Bool) : Char := if b then '1' else '0'

/-- The text of `bitset<4>(v)` written to a stream: the four low bits of `v`, the most
significant first. -/
def bitset4 (v : Nat) : String :=
  String.mk [bitChar (v.testBit 3), bitChar (v.testBit 2), bitChar (v.testBit 1),
    bitChar (v.testBit 0)]

/-- The padding `((i<5)?"000":((i<50)?"00":"0"))` of the instruction loop of
`generateDump`, keyed on the slot index `i`. -/
def instrPad (i : Nat) : String := if i < 5 then "000" else if i < 50 then "00" else "0"

/-- The padding `((512+i < 1000)?"0":"")` of the data loop of `generateDump`. -/
def dataPad (i : Nat) : String := if 512 + i < 1000 then "0" else ""

/-- The two records the instruction loop of `generateDump` writes for slot `i`, without
the `endl`: address `i << 1` with `opcode`, `op1`, and address `(i << 1) + 1` with `op2`,
`op3`.  An `int` is written in decimal. -/
def instrLines (p : Processor) (i : Fin 256) : List String :=
  [instrPad i.val ++ toString (i.val <<< 1) ++ " : " ++
      bitset4 (p.InstrMemory i).opcode.val ++ " " ++ bitset4 (p.InstrMemory i).op1.val,
   instrPad i.val ++ toString ((i.val <<< 1) + 1) ++ " : " ++
      bitset4 (p.InstrMemory i).op2.val ++ " " ++ bitset4 (p.InstrMemory i).op3.val]

/-- The record the data loop of `generateDump` writes for byte `i`, without the `endl`:
address `512 + i` with `DataMemory[i] >> 4` and `DataMemory[i]`. -/
def dataLine (p : Processor) (i : Fin 512) : String :=
  dataPad i.val ++ toString (512 + i.val) ++ " : " ++
    bitset4 (p.DataMemory i >>> 4) ++ " " ++ bitset4 (p.DataMemory i)

/-- The records `generateDump` writes, in order: the instruction loop over
`i = 0 … 255`, then the data loop over `i = 0 … 511`. -/
def dumpLines (p : Processor) : List String :=
  (List.finRange 256).flatMap (instrLines p) ++ (List.finRange 512).map (dataLine p)

/-- The method `generateDump`: the text written to the output file, every record followed
by the newline of `endl`. -/
def generateDump (p : Processor) : String :=
  String.join ((dumpLines p).map (fun l => l ++ "\n"))

/-! ## Specification-side decodings

The decodings and the dump fields as the specification words them, to be compared with
what the code computes. -/

/-- Specification: 4-bit two's-complement decoding, values 8–15 map to `value − 16`. -/
def specSign4 (x : Nat) : Int := if x ≤ 7 then (x : Int) else (x : Int) - 16

/-- Specification: 8-bit two's-complement decoding, values 128–255 map to `value − 256`. -/
def specSign8 (b : Nat) : Int := if b ≤ 127 then (b : Int) else (b : Int) - 256

/-- Specification: the 16-bit signed value with high byte `hi` and low byte `lo`
(big-endian), negative when `hi ≥ 128`. -/
def specSign16 (hi lo : Nat) : Int :=
  if hi < 128 then ((256 * hi + lo : Nat) : Int) else ((256 * hi + lo : Nat) : Int) - 65536

/-- Specification: the decimal digit character of `d`. -/
def specDigit (d : Nat) : Char := Char.ofNat (48 + d)

/-- Specification: `k` written in decimal and zero-padded to a field of 4 characters. -/
def specAddr4 (k : Nat) : String :=
  String.mk [specDigit (k / 1000 % 10), specDigit (k / 100 % 10), specDigit (k / 10 % 10),
    specDigit (k % 10)]

/-- Specification: the 4-digit binary string of the nibble `x`. -/
def specBin4 (x : Nat) : String :=
  String.mk [specDigit (x / 8 % 2), specDigit (x / 4 % 2), specDigit (x / 2 % 2),
    specDigit (x % 2)]

/-! ## Loaded sample states -/

/-- The processor after loading the register values `regs` (missing ones are 0) and the
program `prog` at address 0, with no data pairs. -/
def loaded (regs : List Int) (prog : List (Int × Int × Int × Int)) : Processor :=
  loadInstructions (loadRegisters Processor.init (fun i => regs.getD i.val 0)) 0 prog

/-! ## Two's-complement decoding -/

/-- C9: on every 4-bit field value `x` the immediate decoder `TWOCOMP` returns `x` when
`x ≤ 7` and `x - 16` when `x ≥ 8`; the result lies in `[-8, 7]` and is congruent to `x`
modulo 16; in particular it maps 8 to -8, 15 to -1 and 7 to 7. -/
theorem TWOCOMP_decodes_field (x : Fin 16) :
    TWOCOMP (x.val : Int) = (if x.val ≤ 7 then (x.val : Int) else (x.val : Int) - 16) ∧
    -8 ≤ TWOCOMP (x.val : Int) ∧ TWOCOMP (x.val : Int) ≤ 7 ∧
    (TWOCOMP (x.val : Int) - (x.val : Int)) % 16 = 0 ∧
    TWOCOMP 8 = -8 ∧ TWOCOMP 15 = -1 ∧ TWOCOMP 7 = 7 := by
  revert x
  decide

/-- C8: for all 4-bit fields `op2`, `op3` the branch offset obtained by textually
expanding `TWOCOMP2` on `(op2 << 4) | op3` is the 8-bit two's-complement decoding of
`b = 16 * op2 + op3`: `b` when `b ≤ 127`, `b - 256` when `b ≥ 128`; the negative branch,
`(op2 << 4) | (op3 - 256)`, evaluates to `b - 256`; and the decodings of 128, 255 and 127
are -128, -1 and 127. -/
theorem TWOCOMP2_decodes_offset (op2 op3 : Fin 16) :
    TWOCOMP2 op2 op3 =
      (if 16 * op2.val + op3.val ≤ 127 then ((16 * op2.val + op3.val : Nat) : Int)
       else ((16 * op2.val + op3.val : Nat) : Int) - 256) ∧
    intOr ((op2.val <<< 4 : Nat) : Int) ((op3.val : Int) - 256)
      = ((16 * op2.val + op3.val : Nat) : Int) - 256 ∧
    TWOCOMP2 8 0 = -128 ∧ TWOCOMP2 15 15 = -1 ∧ TWOCOMP2 7 15 = 127 := by
  revert op2 op3
  decide

/-! ## Auxiliary facts about the conversions and the fetch -/

theorem toData_range (x : Int) : -32768 ≤ toData x ∧ toData x ≤ 32767 := by
  unfold toData; omega

theorem toData_congr (x : Int) : (toData x - x) % 65536 = 0 := by
  unfold toData; omega

theorem toData_of_range (x : Int) (h1 : -32768 ≤ x) (h2 : x ≤ 32767) : toData x = x := by
  unfold toData; omega

theorem advance_address (p : Processor) :
    (advance p).PC.address.val = (p.PC.address.val + 2) % 512 := by
  simp [advance, toAddress]; omega

/-- The post-state of a register-writing instruction: the destination holds the converted
value, everything else is as after the fetch. -/
theorem writeReg_frame (p : Processor) (d : Fin 16) (x : Int) :
    (writeReg p d x).RegisterFile d = toData x ∧
    (∀ r, r ≠ d → (writeReg p d x).RegisterFile r = p.RegisterFile r) ∧
    (writeReg p d x).DataMemory = p.DataMemory ∧
    (writeReg p d x).InstrMemory = p.InstrMemory ∧
    (writeReg p d x).PC.address.val = (p.PC.address.val + 2) % 512 :=
  ⟨by simp [writeReg], fun r hr => by simp [writeReg, Function.update, hr], rfl, rfl,
    advance_address p⟩

/-! ## Register arithmetic -/

/-- C1: when the fetched instruction is ADD, SUB or MUL, one iteration succeeds and
register `op1` receives `R[op2] + R[op3]`, `R[op2] - R[op3]` or `R[op2] * R[op3]` (old
values), computed exactly and wrapped to a 16-bit two's-complement value (it lies in
`[-32768, 32767]` and is congruent to the exact result modulo `2^16`); every other
register and the data memory are unchanged and `PC` becomes `(PC + 2) mod 512`. -/
theorem arith_register_semantics (p : Processor)
    (hop : (fetch p).opcode.val = ADD ∨ (fetch p).opcode.val = SUB ∨
      (fetch p).opcode.val = MUL) :
    ∃ q, cycle p = some q ∧
      -32768 ≤ q.RegisterFile (fetch p).op1 ∧ q.RegisterFile (fetch p).op1 ≤ 32767 ∧
      ((fetch p).opcode.val = ADD → (q.RegisterFile (fetch p).op1 -
        (p.RegisterFile (fetch p).op2 + p.RegisterFile (fetch p).op3)) % 65536 = 0) ∧
      ((fetch p).opcode.val = SUB → (q.RegisterFile (fetch p).op1 -
        (p.RegisterFile (fetch p).op2 - p.RegisterFile (fetch p).op3)) % 65536 = 0) ∧
      ((fetch p).opcode.val = MUL → (q.RegisterFile (fetch p).op1 -
        (p.RegisterFile (fetch p).op2 * p.RegisterFile (fetch p).op3)) % 65536 = 0) ∧
      (∀ r, r ≠ (fetch p).op1 → q.RegisterFile r = p.RegisterFile r) ∧
      q.DataMemory = p.DataMemory ∧
      q.PC.address.val = (p.PC.address.val + 2) % 512 := by
  rcases hop with h | h | h
  · obtain ⟨h1, h2, h3, _, h5⟩ := writeReg_frame p (fetch p).op1
      (p.RegisterFile (fetch p).op2 + p.RegisterFile (fetch p).op3)
    refine ⟨_, by simp [cycle, h], ?_, ?_, ?_, ?_, ?_, h2, h3, h5⟩
    · rw [h1]; exact (toData_range _).1
    · rw [h1]; exact (toData_range _).2
    · intro _; rw [h1]; exact toData_congr _
    · intro h'; rw [h] at h'; exact absurd h' (by decide)
    · intro h'; rw [h] at h'; exact absurd h' (by decide)
  · obtain ⟨h1, h2, h3, _, h5⟩ := writeReg_frame p (fetch p).op1
      (p.RegisterFile (fetch p).op2 - p.RegisterFile (fetch p).op3)
    refine ⟨_, by simp [cycle, h], ?_, ?_, ?_, ?_, ?_, h2, h3, h5⟩
    · rw [h1]; exact (toData_range _).1
    · rw [h1]; exact (toData_range _).2
    · intro h'; rw [h] at h'; exact absurd h' (by decide)
    · intro _; rw [h1]; exact toData_congr _
    · intro h'; rw [h] at h'; exact absurd h' (by decide)
  · obtain ⟨h1, h2, h3, _, h5⟩ := writeReg_frame p (fetch p).op1
      (p.RegisterFile (fetch p).op2 * p.RegisterFile (fetch p).op3)
    refine ⟨_, by simp [cycle, h], ?_, ?_, ?_, ?_, ?_, h2, h3, h5⟩
    · rw [h1]; exact (toData_range _).1
    · rw [h1]; exact (toData_range _).2
    · intro h'; rw [h] at h'; exact absurd h' (by decide)
    · intro h'; rw [h] at h'; exact absurd h' (by decide)
    · intro _; rw [h1]; exact toData_congr _


/-- C1 (instance): `ADD R3, R1, R2` with `R1 = 30000`, `R2 = 10000` leaves the wrapped
sum `-25536` in `R3` and `R1` as it was. -/
theorem arith_register_semantics_witness :
    (fetch (loaded [0, 30000, 10000] [(0, 3, 1, 2)])).opcode.val = ADD ∧
    ∃ q, cycle (loaded [0, 30000, 10000] [(0, 3, 1, 2)]) = some q ∧
      q.RegisterFile 3 = -25536 ∧ q.RegisterFile 1 = 30000 := by
  refine ⟨by decide, ?_⟩
  obtain ⟨q, hq, h1, h2, h3, _, _, h6, _⟩ :=
    arith_register_semantics (loaded [0, 30000, 10000] [(0, 3, 1, 2)]) (Or.inl (by decide))
  refine ⟨q, hq, ?_, ?_⟩
  · have h3 := h3 (by decide)
    have e1 : (fetch (loaded [0, 30000, 10000] [(0, 3, 1, 2)])).op1 = 3 := by decide
    have e2 : (loaded [0, 30000, 10000] [(0, 3, 1, 2)]).RegisterFile
        (fetch (loaded [0, 30000, 10000] [(0, 3, 1, 2)])).op2 = 30000 := by decide
    have e3 : (loaded [0, 30000, 10000] [(0, 3, 1, 2)]).RegisterFile
        (fetch (loaded [0, 30000, 10000] [(0, 3, 1, 2)])).op3 = 10000 := by decide
    rw [e1] at h1 h2 h3
    rw [e2, e3] at h3
    omega
  · rw [h6 1 (by decide)]; decide

/-- On a 4-bit field the macro `TWOCOMP` computes the specified decoding. -/
theorem TWOCOMP_eq_specSign4 (x : Fin 16) : TWOCOMP (x.val : Int) = specSign4 x.val := by
  revert x
  decide

/-- C2: when the fetched instruction is ADDI, SUBI or MULI, one iteration succeeds and
register `op1` receives `R[op2] + sign4(op3)`, `R[op2] - sign4(op3)` or
`R[op2] * sign4(op3)` wrapped to 16 bits (in `[-32768, 32767]`, congruent to the exact
result modulo `2^16`), where `sign4` is the specified 4-bit decoding, so that SUBI with
`op3 = 8` adds 8; every other register and the data memory are unchanged. -/
theorem arith_immediate_semantics (p : Processor)
    (hop : (fetch p).opcode.val = ADDI ∨ (fetch p).opcode.val = SUBI ∨
      (fetch p).opcode.val = MULI) :
    ∃ q, cycle p = some q ∧
      -32768 ≤ q.RegisterFile (fetch p).op1 ∧ q.RegisterFile (fetch p).op1 ≤ 32767 ∧
      ((fetch p).opcode.val = ADDI → (q.RegisterFile (fetch p).op1 -
        (p.RegisterFile (fetch p).op2 + specSign4 (fetch p).op3.val)) % 65536 = 0) ∧
      ((fetch p).opcode.val = SUBI → (q.RegisterFile (fetch p).op1 -
        (p.RegisterFile (fetch p).op2 - specSign4 (fetch p).op3.val)) % 65536 = 0) ∧
      ((fetch p).opcode.val = MULI → (q.RegisterFile (fetch p).op1 -
        (p.RegisterFile (fetch p).op2 * specSign4 (fetch p).op3.val)) % 65536 = 0) ∧
      ((fetch p).opcode.val = SUBI → (fetch p).op3.val = 8 → (q.RegisterFile (fetch p).op1 -
        (p.RegisterFile (fetch p).op2 + 8)) % 65536 = 0) ∧
      (∀ r, r ≠ (fetch p).op1 → q.RegisterFile r = p.RegisterFile r) ∧
      q.DataMemory = p.DataMemory := by
  have hs := TWOCOMP_eq_specSign4 (fetch p).op3
  rcases hop with h | h | h
  · obtain ⟨h1, h2, h3, _, _⟩ := writeReg_frame p (fetch p).op1
      (p.RegisterFile (fetch p).op2 + TWOCOMP (fetch p).op3.val)
    refine ⟨_, by simp [cycle, h], ?_, ?_, ?_, ?_, ?_, ?_, h2, h3⟩
    · rw [h1]; exact (toData_range _).1
    · rw [h1]; exact (toData_range _).2
    · intro _; rw [h1, ← hs]; exact toData_congr _
    · intro h'; rw [h] at h'; exact absurd h' (by decide)
    · intro h'; rw [h] at h'; exact absurd h' (by decide)
    · intro h'; rw [h] at h'; exact absurd h' (by decide)
  · obtain ⟨h1, h2, h3, _, _⟩ := writeReg_frame p (fetch p).op1
      (p.RegisterFile (fetch p).op2 - TWOCOMP (fetch p).op3.val)
    refine ⟨_, by simp [cycle, h], ?_, ?_, ?_, ?_, ?_, ?_, h2, h3⟩
    · rw [h1]; exact (toData_range _).1
    · rw [h1]; exact (toData_range _).2
    · intro h'; rw [h] at h'; exact absurd h' (by decide)
    · intro _; rw [h1, ← hs]; exact toData_congr _
    · intro h'; rw [h] at h'; exact absurd h' (by decide)
    · intro _ h8
      have e : TWOCOMP ((fetch p).op3.val : Int) = -8 := by
        rw [hs, h8]; decide
      rw [h1, e]
      have := toData_congr (p.RegisterFile (fetch p).op2 - -8)
      omega
  · obtain ⟨h1, h2, h3, _, _⟩ := writeReg_frame p (fetch p).op1
      (p.RegisterFile (fetch p).op2 * TWOCOMP (fetch p).op3.val)
    refine ⟨_, by simp [cycle, h], ?_, ?_, ?_, ?_, ?_, ?_, h2, h3⟩
    · rw [h1]; exact (toData_range _).1
    · rw [h1]; exact (toData_range _).2
    · intro h'; rw [h] at h'; exact absurd h' (by decide)
    · intro h'; rw [h] at h'; exact absurd h' (by decide)
    · intro _; rw [h1, ← hs]; exact toData_congr _
    · intro h'; rw [h] at h'; exact absurd h' (by decide)

/-- C2 (instance): `SUBI R3, R1, 8` with `R1 = 100` leaves `108` in `R3`, and
`MULI R3, R1, 15` with `R1 = 100` leaves `-100`. -/
theorem arith_immediate_semantics_witness :
    (fetch (loaded [0, 100] [(3, 3, 1, 8)])).opcode.val = SUBI ∧
    (fetch (loaded [0, 100] [(7, 3, 1, 15)])).opcode.val = MULI ∧
    (∃ q, cycle (loaded [0, 100] [(3, 3, 1, 8)]) = some q ∧ q.RegisterFile 3 = 108) ∧
    (∃ q, cycle (loaded [0, 100] [(7, 3, 1, 15)]) = some q ∧ q.RegisterFile 3 = -100) := by
  refine ⟨by decide, by decide, ?_, ?_⟩
  · obtain ⟨q, hq, h1, h2, _, _, _, h3, _⟩ :=
      arith_immediate_semantics (loaded [0, 100] [(3, 3, 1, 8)]) (Or.inr (Or.inl (by decide)))
    refine ⟨q, hq, ?_⟩
    have h3 := h3 (by decide) (by decide)
    have e1 : (fetch (loaded [0, 100] [(3, 3, 1, 8)])).op1 = 3 := by decide
    have e2 : (loaded [0, 100] [(3, 3, 1, 8)]).RegisterFile
        (fetch (loaded [0, 100] [(3, 3, 1, 8)])).op2 = 100 := by decide
    rw [e1] at h1 h2 h3
    rw [e2] at h3
    omega
  · obtain ⟨q, hq, h1, h2, _, _, h3, _⟩ :=
      arith_immediate_semantics (loaded [0, 100] [(7, 3, 1, 15)]) (Or.inr (Or.inr (by decide)))
    refine ⟨q, hq, ?_⟩
    have h3 := h3 (by decide)
    have e1 : (fetch (loaded [0, 100] [(7, 3, 1, 15)])).op1 = 3 := by decide
    have e2 : (loaded [0, 100] [(7, 3, 1, 15)]).RegisterFile
        (fetch (loaded [0, 100] [(7, 3, 1, 15)])).op2 = 100 := by decide
    have e3 : specSign4 (fetch (loaded [0, 100] [(7, 3, 1, 15)])).op3.val = -1 := by decide
    rw [e1] at h1 h2 h3
    rw [e2, e3] at h3
    omega

/-! ## Branches -/

/-- On two 4-bit fields the expanded macro `TWOCOMP2` computes the specified 8-bit
decoding of `16 * op2 + op3`. -/
theorem TWOCOMP2_eq_specSign8 (op2 op3 : Fin 16) :
    TWOCOMP2 op2 op3 = specSign8 (16 * op2.val + op3.val) := by
  revert op2 op3
  decide

/-- Adding `offset - 2` to the already incremented 9-bit `PC` lands on `PC + offset`
modulo 512. -/
theorem toAddress_rebase (A : Fin 512) (off : Int) :
    ((toAddress ((((toAddress ((A.val : Int) + 2)).val : Nat) : Int) + (off - 2))).val : Int)
      = ((A.val : Int) + off) % 512 := by
  simp only [toAddress]
  omega

theorem cycle_JMP_eq (p : Processor) (hop : (fetch p).opcode.val = JMP) :
    cycle p = some (branchTo p) := by
  simp [cycle, hop, branchTo]

theorem cycle_BEQZ_taken (p : Processor) (hop : (fetch p).opcode.val = BEQZ)
    (hz : p.RegisterFile (fetch p).op1 = 0) : cycle p = some (branchTo p) := by
  simp [cycle, hop, hz, branchTo]

theorem cycle_BEQZ_not_taken (p : Processor) (hop : (fetch p).opcode.val = BEQZ)
    (hz : p.RegisterFile (fetch p).op1 ≠ 0) : cycle p = some (advance p) := by
  simp [cycle, hop, hz]

theorem branchTo_address (p : Processor) :
    ((branchTo p).PC.address.val : Int) =
      ((p.PC.address.val : Int) + specSign8 (16 * (fetch p).op2.val + (fetch p).op3.val)) % 512 := by
  rw [← TWOCOMP2_eq_specSign8]
  exact toAddress_rebase p.PC.address (TWOCOMP2 (fetch p).op2 (fetch p).op3)

/-- C4: when the fetched instruction is JMP and `PC = A`, one iteration succeeds and
leaves `PC = (A + sign8(16 * op2 + op3)) mod 512`, the offset being relative to the
address of the JMP itself; with `op2 = 0`, `op3 = 2` this is the fall-through address
`(A + 2) mod 512`, which is `A + 2` whenever that is a code address; registers and data
memory are unchanged. -/
theorem JMP_rebased_to_own_address (p : Processor) (hop : (fetch p).opcode.val = JMP) :
    ∃ q, cycle p = some q ∧
      (q.PC.address.val : Int) =
        ((p.PC.address.val : Int) + specSign8 (16 * (fetch p).op2.val + (fetch p).op3.val)) % 512 ∧
      ((fetch p).op2.val = 0 → (fetch p).op3.val = 2 →
        q.PC.address.val = (p.PC.address.val + 2) % 512 ∧
        q.PC.address = (advance p).PC.address ∧
        (p.PC.address.val + 2 < 512 → q.PC.address.val = p.PC.address.val + 2)) ∧
      q.RegisterFile = p.RegisterFile ∧ q.DataMemory = p.DataMemory := by
  have hr := branchTo_address p
  refine ⟨branchTo p, cycle_JMP_eq p hop, hr, ?_, rfl, rfl⟩
  intro h2 h3
  have e : specSign8 (16 * (fetch p).op2.val + (fetch p).op3.val) = 2 := by
    rw [h2, h3]; decide
  rw [e] at hr
  have hv := advance_address p
  refine ⟨?_, ?_, ?_⟩
  · omega
  · apply Fin.ext; omega
  · intro hlt; omega

/-- C4 (instance): a JMP with `op2 = 15`, `op3 = 14` (offset -2) fetched at `PC = 100`
leaves `PC = 98`. -/
theorem JMP_rebased_to_own_address_witness :
    (fetch { loaded [] (List.replicate 51 (12, 0, 15, 14)) with PC := ⟨0, 100⟩ }).opcode.val = JMP ∧
    ∃ q, cycle { loaded [] (List.replicate 51 (12, 0, 15, 14)) with PC := ⟨0, 100⟩ } = some q ∧
      q.PC.address.val = 98 := by
  refine ⟨by decide, ?_⟩
  obtain ⟨q, hq, h1, _⟩ :=
    JMP_rebased_to_own_address { loaded [] (List.replicate 51 (12, 0, 15, 14)) with PC := ⟨0, 100⟩ } (by decide)
  refine ⟨q, hq, ?_⟩
  have e : specSign8 (16 *
      (fetch { loaded [] (List.replicate 51 (12, 0, 15, 14)) with PC := ⟨0, 100⟩ }).op2.val +
      (fetch { loaded [] (List.replicate 51 (12, 0, 15, 14)) with PC := ⟨0, 100⟩ }).op3.val)
      = -2 := by decide
  rw [e] at h1
  simp only at h1
  omega

/-- C5: when the fetched instruction is BEQZ and `PC = A`, one iteration succeeds; if
`R[op1] = 0` the new `PC` is `(A + sign8(16 * op2 + op3)) mod 512`, and for every
non-zero `R[op1]`, positive or negative, it is `(A + 2) mod 512`; registers and data
memory are unchanged in both cases. -/
theorem BEQZ_branches_iff_zero (p : Processor) (hop : (fetch p).opcode.val = BEQZ) :
    ∃ q, cycle p = some q ∧
      (p.RegisterFile (fetch p).op1 = 0 → (q.PC.address.val : Int) =
        ((p.PC.address.val : Int) + specSign8 (16 * (fetch p).op2.val + (fetch p).op3.val)) % 512) ∧
      (p.RegisterFile (fetch p).op1 ≠ 0 → q.PC.address.val = (p.PC.address.val + 2) % 512) ∧
      q.RegisterFile = p.RegisterFile ∧ q.DataMemory = p.DataMemory := by
  by_cases hz : p.RegisterFile (fetch p).op1 = 0
  · exact ⟨branchTo p, cycle_BEQZ_taken p hop hz, fun _ => branchTo_address p,
      fun h => absurd hz h, rfl, rfl⟩
  · exact ⟨advance p, cycle_BEQZ_not_taken p hop hz, fun h => absurd h hz,
      fun _ => advance_address p, rfl, rfl⟩

/-- C5 (instance): `BEQZ R1` with offset 6 at `PC = 0` goes to 6 when `R1 = 0` and to 2
when `R1 = -1`. -/
theorem BEQZ_branches_iff_zero_witness :
    (fetch (loaded [0, 0] [(13, 1, 0, 6)])).opcode.val = BEQZ ∧
    (fetch (loaded [0, -1] [(13, 1, 0, 6)])).opcode.val = BEQZ ∧
    (∃ q, cycle (loaded [0, 0] [(13, 1, 0, 6)]) = some q ∧ q.PC.address.val = 6) ∧
    (∃ q, cycle (loaded [0, -1] [(13, 1, 0, 6)]) = some q ∧ q.PC.address.val = 2) := by
  refine ⟨by decide, by decide, ?_, ?_⟩
  · obtain ⟨q, hq, h1, _⟩ := BEQZ_branches_iff_zero (loaded [0, 0] [(13, 1, 0, 6)]) (by decide)
    refine ⟨q, hq, ?_⟩
    have h1 := h1 (by decide)
    have e : specSign8 (16 * (fetch (loaded [0, 0] [(13, 1, 0, 6)])).op2.val +
        (fetch (loaded [0, 0] [(13, 1, 0, 6)])).op3.val) = 6 := by decide
    have e0 : (loaded [0, 0] [(13, 1, 0, 6)]).PC.address.val = 0 := by decide
    rw [e, e0] at h1
    omega
  · obtain ⟨q, hq, _, h2, _⟩ := BEQZ_branches_iff_zero (loaded [0, -1] [(13, 1, 0, 6)]) (by decide)
    refine ⟨q, hq, ?_⟩
    have h2 := h2 (by decide)
    have e0 : (loaded [0, -1] [(13, 1, 0, 6)]).PC.address.val = 0 := by decide
    rw [e0] at h2
    omega

/-! ## Loads and stores -/

/-- The expression `(hi << 8) | lo` is `256 * hi + lo` when `lo` is a byte. -/
theorem shift_or_byte (hi lo : Nat) (hlo : lo < 256) : (hi <<< 8) ||| lo = 256 * hi + lo := by
  rw [Nat.shiftLeft_eq, Nat.mul_comm hi (2 ^ 8)]
  exact (Nat.mul_add_lt_is_or (by simpa using hlo) hi).symm

/-- Converting the big-endian pair of bytes to `Data` gives the specified signed value. -/
theorem toData_bytes (hi lo : Nat) (hhi : hi < 256) (hlo : lo < 256) :
    toData (((hi <<< 8) ||| lo : Nat) : Int) = specSign16 hi lo := by
  rw [shift_or_byte hi lo hlo]
  unfold toData specSign16
  split <;> omega

theorem cycle_LD_eq (p : Processor) (hop : (fetch p).opcode.val = LD)
    (hr : toUShort (p.RegisterFile (fetch p).op2 + p.RegisterFile (fetch p).op3 - 512) + 1 < 512) :
    cycle p = some (writeReg p (fetch p).op1
      (((p.DataMemory ⟨toUShort (p.RegisterFile (fetch p).op2 +
            p.RegisterFile (fetch p).op3 - 512), by omega⟩ <<< 8) |||
        p.DataMemory ⟨toUShort (p.RegisterFile (fetch p).op2 +
            p.RegisterFile (fetch p).op3 - 512) + 1, hr⟩ : Nat) : Int)) := by
  simp [cycle, hop, hr]

theorem cycle_SD_eq (p : Processor) (hop : (fetch p).opcode.val = SD)
    (hr : toUShort (p.RegisterFile (fetch p).op1 + p.RegisterFile (fetch p).op2 - 512) + 1 < 512) :
    cycle p = some (storeData p
      (toUShort (p.RegisterFile (fetch p).op1 + p.RegisterFile (fetch p).op2 - 512)) hr
      (p.RegisterFile (fetch p).op3)) := by
  simp [cycle, hop, hr]

/-- The post-state of a store: the two addressed cells hold the high and the low byte of
the 16-bit pattern, everything else is as after the fetch. -/
theorem storeData_frame (p : Processor) (loc : Nat) (h : loc + 1 < 512) (x : Int) :
    (storeData p loc h x).DataMemory ⟨loc, by omega⟩ = toUShort x / 256 ∧
    (storeData p loc h x).DataMemory ⟨loc + 1, h⟩ = toUShort x % 256 ∧
    (∀ a : Fin 512, a.val ≠ loc → a.val ≠ loc + 1 →
      (storeData p loc h x).DataMemory a = p.DataMemory a) ∧
    (storeData p loc h x).RegisterFile = p.RegisterFile ∧
    (storeData p loc h x).InstrMemory = p.InstrMemory ∧
    (storeData p loc h x).PC.address.val = (p.PC.address.val + 2) % 512 := by
  have hne : (⟨loc, by omega⟩ : Fin 512) ≠ ⟨loc + 1, h⟩ := by
    intro h; have := congrArg Fin.val h; simp at this
  refine ⟨?_, ?_, ?_, rfl, rfl, advance_address p⟩
  · simp only [storeData, Function.update_noteq hne, Function.update_same]
    unfold toDataElement toUShort
    rw [Nat.shiftRight_eq_div_pow]
    omega
  · simp only [storeData, Function.update_same]
    unfold toDataElement toUShort
    omega
  · intro a h1 h2
    have n1 : a ≠ ⟨loc, by omega⟩ := fun h => h1 (congrArg Fin.val h)
    have n2 : a ≠ ⟨loc + 1, h⟩ := fun h => h2 (congrArg Fin.val h)
    simp only [storeData, Function.update_noteq n2, Function.update_noteq n1]

/-- C6: when the fetched instruction is LD and `loc = R[op2] + R[op3] - 512` lies in
`0..510`, one iteration succeeds and register `op1` becomes the 16-bit signed value with
high byte `DataMemory[loc]` and low byte `DataMemory[loc+1]` (negative when the high byte
is at least 128); every other register and the data memory are unchanged.  The data cells
are bytes (`hbytes`). -/
theorem LD_reads_big_endian (p : Processor) (loc : Nat) (hop : (fetch p).opcode.val = LD)
    (hloc : (loc : Int) = p.RegisterFile (fetch p).op2 + p.RegisterFile (fetch p).op3 - 512)
    (hr : loc + 1 < 512) (hbytes : ∀ a, p.DataMemory a < 256) :
    ∃ q, cycle p = some q ∧
      q.RegisterFile (fetch p).op1 =
        specSign16 (p.DataMemory ⟨loc, by omega⟩) (p.DataMemory ⟨loc + 1, hr⟩) ∧
      (128 ≤ p.DataMemory ⟨loc, by omega⟩ → q.RegisterFile (fetch p).op1 < 0) ∧
      (∀ r, r ≠ (fetch p).op1 → q.RegisterFile r = p.RegisterFile r) ∧
      q.DataMemory = p.DataMemory := by
  have e : toUShort (p.RegisterFile (fetch p).op2 + p.RegisterFile (fetch p).op3 - 512) = loc := by
    unfold toUShort; omega
  have hr' : toUShort (p.RegisterFile (fetch p).op2 + p.RegisterFile (fetch p).op3 - 512) + 1
      < 512 := by rw [e]; exact hr
  have hc := cycle_LD_eq p hop hr'
  simp only [e] at hc
  obtain ⟨h1, h2, h3, _, _⟩ := writeReg_frame p (fetch p).op1
    (((p.DataMemory ⟨loc, by omega⟩ <<< 8) ||| p.DataMemory ⟨loc + 1, hr⟩ : Nat) : Int)
  have hv := toData_bytes _ _ (hbytes ⟨loc, by omega⟩) (hbytes ⟨loc + 1, hr⟩)
  refine ⟨_, hc, h1.trans hv, ?_, h2, h3⟩
  intro h128
  rw [h1, hv]
  have := hbytes ⟨loc, by omega⟩
  have := hbytes ⟨loc + 1, hr⟩
  unfold specSign16
  split <;> omega

/-- C7: when the fetched instruction is SD and `loc = R[op1] + R[op2] - 512` lies in
`0..510`, one iteration succeeds and afterwards `DataMemory[loc]` is the high byte and
`DataMemory[loc+1]` the low byte of the 16-bit two's-complement pattern `pat` of `R[op3]`
(`0 ≤ pat < 2^16`, congruent to `R[op3]` modulo `2^16`, so `R[op3] + 65536` for a negative
16-bit value); every other data byte and all registers are unchanged. -/
theorem SD_writes_big_endian (p : Processor) (loc : Nat) (hop : (fetch p).opcode.val = SD)
    (hloc : (loc : Int) = p.RegisterFile (fetch p).op1 + p.RegisterFile (fetch p).op2 - 512)
    (hr : loc + 1 < 512) :
    ∃ q, cycle p = some q ∧
      (∃ pat : Nat, pat < 65536 ∧ ((pat : Int) - p.RegisterFile (fetch p).op3) % 65536 = 0 ∧
        (-32768 ≤ p.RegisterFile (fetch p).op3 → p.RegisterFile (fetch p).op3 < 0 →
          (pat : Int) = p.RegisterFile (fetch p).op3 + 65536) ∧
        q.DataMemory ⟨loc, by omega⟩ = pat / 256 ∧ q.DataMemory ⟨loc + 1, hr⟩ = pat % 256) ∧
      (∀ a : Fin 512, a.val ≠ loc → a.val ≠ loc + 1 → q.DataMemory a = p.DataMemory a) ∧
      q.RegisterFile = p.RegisterFile := by
  have e : toUShort (p.RegisterFile (fetch p).op1 + p.RegisterFile (fetch p).op2 - 512) = loc := by
    unfold toUShort; omega
  have hr' : toUShort (p.RegisterFile (fetch p).op1 + p.RegisterFile (fetch p).op2 - 512) + 1
      < 512 := by rw [e]; exact hr
  have hc := cycle_SD_eq p hop hr'
  simp only [e] at hc
  obtain ⟨f1, f2, f3, f4, _, _⟩ := storeData_frame p loc hr (p.RegisterFile (fetch p).op3)
  refine ⟨_, hc, ⟨toUShort (p.RegisterFile (fetch p).op3), ?_, ?_, ?_, f1, f2⟩, f3, f4⟩
  · unfold toUShort; omega
  · unfold toUShort; omega
  · intro h1 h2; unfold toUShort; omega

/-- C6 (instance): with bytes `0xFF`, `0xFE` at data offsets 88, 89 and `R1 + R2 = 600`,
`LD R3, R1, R2` leaves `-2` in `R3`. -/
theorem LD_reads_big_endian_witness :
    (fetch { loaded [0, 600, 0] [(8, 3, 1, 2)] with
      DataMemory := fun a => if a.val = 88 then 255 else if a.val = 89 then 254 else 0 }).opcode.val
      = LD ∧
    ∃ q, cycle { loaded [0, 600, 0] [(8, 3, 1, 2)] with
      DataMemory := fun a => if a.val = 88 then 255 else if a.val = 89 then 254 else 0 } = some q ∧
      q.RegisterFile 3 = -2 := by
  refine ⟨by decide, ?_⟩
  obtain ⟨q, hq, h1, _⟩ := LD_reads_big_endian { loaded [0, 600, 0] [(8, 3, 1, 2)] with
      DataMemory := fun a => if a.val = 88 then 255 else if a.val = 89 then 254 else 0 } 88
    (by decide) (by decide) (by decide)
    (by intro a; simp only; split_ifs <;> omega)
  exact ⟨q, hq, h1.trans (by decide)⟩

/-- C7 (instance): with `R1 + R2 = 600` and `R3 = -2`, `SD R1, R2, R3` leaves `0xFF` at
data offset 88, `0xFE` at 89 and `0` at 90. -/
theorem SD_writes_big_endian_witness :
    (fetch (loaded [0, 600, 0, -2] [(10, 1, 2, 3)])).opcode.val = SD ∧
    ∃ q, cycle (loaded [0, 600, 0, -2] [(10, 1, 2, 3)]) = some q ∧
      q.DataMemory 88 = 255 ∧ q.DataMemory 89 = 254 ∧ q.DataMemory 90 = 0 ∧
      q.RegisterFile 3 = -2 := by
  refine ⟨by decide, ?_⟩
  obtain ⟨q, hq, ⟨pat, hp, hc, hneg, hhi, hlo⟩, hframe, hregs⟩ :=
    SD_writes_big_endian (loaded [0, 600, 0, -2] [(10, 1, 2, 3)]) 88 (by decide) (by decide) (by decide)
  have e3 : (loaded [0, 600, 0, -2] [(10, 1, 2, 3)]).RegisterFile
      (fetch (loaded [0, 600, 0, -2] [(10, 1, 2, 3)])).op3 = -2 := by decide
  rw [e3] at hc hneg
  have hpat : pat = 65534 := by omega
  subst hpat
  refine ⟨q, hq, hhi, hlo, ?_, ?_⟩
  · rw [hframe 90 (by decide) (by decide)]; decide
  · rw [hregs]; decide

/-- C3: LD/SD round trip.  For a 16-bit value `v` and an absolute data address `a` in
`512..1022`, an SD iteration with `R[op1] + R[op2] = a` and `R[op3] = v` succeeds, and if
the next iteration is an LD with `R[op2'] + R[op3'] = a`, it succeeds too and leaves
exactly `v` in its destination register `op1'`. -/
theorem SD_LD_roundtrip (p : Processor) (a v : Int)
    (hv : -32768 ≤ v ∧ v ≤ 32767) (ha : 512 ≤ a ∧ a ≤ 1022)
    (hSD : (fetch p).opcode.val = SD)
    (hsum : p.RegisterFile (fetch p).op1 + p.RegisterFile (fetch p).op2 = a)
    (hval : p.RegisterFile (fetch p).op3 = v) :
    ∃ q, cycle p = some q ∧
      ((fetch q).opcode.val = LD →
        q.RegisterFile (fetch q).op2 + q.RegisterFile (fetch q).op3 = a →
        ∃ r, cycle q = some r ∧ r.RegisterFile (fetch q).op1 = v) := by
  obtain ⟨loc, hloc⟩ : ∃ loc : Nat, (loc : Int) = a - 512 := ⟨(a - 512).toNat, by omega⟩
  have hr : loc + 1 < 512 := by omega
  have e : toUShort (a - 512) = loc := by unfold toUShort; omega
  have hr' : toUShort (p.RegisterFile (fetch p).op1 + p.RegisterFile (fetch p).op2 - 512) + 1
      < 512 := by rw [hsum, e]; exact hr
  have hc := cycle_SD_eq p hSD hr'
  simp only [hsum, e, hval] at hc
  obtain ⟨f1, f2, _, f4, _, _⟩ := storeData_frame p loc hr v
  refine ⟨storeData p loc hr v, hc, ?_⟩
  intro hLD hsum'
  have hr'' : toUShort ((storeData p loc hr v).RegisterFile (fetch (storeData p loc hr v)).op2 +
      (storeData p loc hr v).RegisterFile (fetch (storeData p loc hr v)).op3 - 512) + 1
      < 512 := by rw [hsum', e]; exact hr
  have hc' := cycle_LD_eq (storeData p loc hr v) hLD hr''
  simp only [hsum', e] at hc'
  refine ⟨_, hc', ?_⟩
  rw [(writeReg_frame _ _ _).1, f1, f2]
  have b1 : toUShort v / 256 < 256 := by unfold toUShort; omega
  have b2 : toUShort v % 256 < 256 := by omega
  rw [toData_bytes _ _ b1 b2]
  unfold specSign16 toUShort
  split <;> omega

/-- C3 (instance): `SD R1, R2, R3` with `R1 + R2 = 600`, `R3 = -2`, followed by
`LD R4, R1, R2`, leaves `-2` in `R4`. -/
theorem SD_LD_roundtrip_witness :
    (fetch (loaded [0, 600, 0, -2] [(10, 1, 2, 3), (8, 4, 1, 2)])).opcode.val = SD ∧
    ∃ q r, cycle (loaded [0, 600, 0, -2] [(10, 1, 2, 3), (8, 4, 1, 2)]) = some q ∧
      (fetch q).opcode.val = LD ∧ cycle q = some r ∧ r.RegisterFile 4 = -2 := by
  refine ⟨by decide, ?_⟩
  obtain ⟨q, hq, H⟩ := SD_LD_roundtrip (loaded [0, 600, 0, -2] [(10, 1, 2, 3), (8, 4, 1, 2)])
    600 (-2) (by decide) (by decide) (by decide) (by decide) (by decide)
  have k : (cycle (loaded [0, 600, 0, -2] [(10, 1, 2, 3), (8, 4, 1, 2)])).map
      (fun s => ((fetch s).opcode.val, (fetch s).op1,
        s.RegisterFile (fetch s).op2 + s.RegisterFile (fetch s).op3)) = some (8, 4, 600) := by
    decide
  rw [hq] at k
  simp only [Option.map_some', Option.some.injEq, Prod.mk.injEq] at k
  obtain ⟨k1, k2, k3⟩ := k
  obtain ⟨r, hr, hv⟩ := H k1 k3
  rw [k2] at hv
  exact ⟨q, r, hq, k1, hr, hv⟩

/-! ## The run loop -/

theorem iterate_succ_right (k : Nat) (p : Processor) :
    iterate (k + 1) p = (iterate k p).bind cycle := by
  induction k generalizing p with
  | zero => simp [iterate]
  | succ k ih =>
    rw [iterate]
    cases hc : cycle p with
    | none => simp [iterate, hc]
    | some q => simp only [Option.some_bind, ih q]; rw [iterate, hc]; rfl

/-- An iteration on an instruction that is neither JMP nor BEQZ, with its data access in
range, succeeds, keeps the instruction memory, advances `PC` by 2 modulo 512 and leaves
`IR` at the fetched slot. -/
theorem cycle_straight (s : Processor) (h1 : (fetch s).opcode.val ≠ JMP)
    (h2 : (fetch s).opcode.val ≠ BEQZ) (hin : accessInRange s) :
    ∃ q, cycle s = some q ∧ q.InstrMemory = s.InstrMemory ∧
      q.PC.address.val = (s.PC.address.val + 2) % 512 ∧ q.IR = fetchIndex s := by
  obtain ⟨hl, hs⟩ := hin
  by_cases cl : (fetch s).opcode.val = LD
  · rw [cycle_LD_eq s cl (hl cl)]
    exact ⟨_, rfl, rfl, advance_address s, rfl⟩
  by_cases cs : (fetch s).opcode.val = SD
  · rw [cycle_SD_eq s cs (hs cs)]
    exact ⟨_, rfl, rfl, advance_address s, rfl⟩
  have hlt : (fetch s).opcode.val < 16 := (fetch s).opcode.isLt
  have hc : ∃ q, cycle s = some q ∧ (q = advance s ∨ ∃ d x, q = writeReg s d x) := by
    simp only [cycle]
    generalize (fetch s).opcode.val = n at *
    interval_cases n <;> simp at h1 h2 cl cs ⊢
  obtain ⟨q, hq, rfl | ⟨d, x, rfl⟩⟩ := hc
  · exact ⟨_, hq, rfl, advance_address s, rfl⟩
  · exact ⟨_, hq, rfl, advance_address s, rfl⟩

theorem cycle_HLT_eq (s : Processor) (h : (fetch s).opcode.val = HLT) :
    cycle s = some (advance s) := by
  simp [cycle, h]

/-- If the first `m` iterations all leave the loop condition true and iteration `m + 1`
leaves it false, the loop ends after exactly `m + 1` iterations, given that much fuel. -/
theorem startLoop_halts (m : Nat) : ∀ (s q : Processor) (done fuel : Nat),
    (∀ j, j < m → ∃ t, iterate (j + 1) s = some t ∧ continues t = true) →
    iterate (m + 1) s = some q → continues q = false → m + 1 ≤ fuel →
    startLoop fuel done s = Outcome.halted q (done + (m + 1)) := by
  induction m with
  | zero =>
    intro s q done fuel _ hq hc hf
    obtain ⟨f, rfl⟩ : ∃ f, fuel = f + 1 := ⟨fuel - 1, by omega⟩
    cases h : cycle s with
    | none => simp [iterate, h] at hq
    | some t =>
      simp [iterate, h] at hq
      subst hq
      simp [startLoop, h, hc]
  | succ m ih =>
    intro s q done fuel hcont hq hc hf
    obtain ⟨f, rfl⟩ : ∃ f, fuel = f + 1 := ⟨fuel - 1, by omega⟩
    obtain ⟨t, ht, htc⟩ := hcont 0 (by omega)
    cases h : cycle s with
    | none => simp [iterate, h] at ht
    | some t' =>
      simp [iterate, h] at ht
      subst ht
      have hq' : iterate (m + 1) t' = some q := by
        rw [iterate, h] at hq; exact hq
      have hcont' : ∀ j, j < m → ∃ t, iterate (j + 1) t' = some t ∧ continues t = true := by
        intro j hj
        obtain ⟨u, hu, huc⟩ := hcont (j + 1) (by omega)
        rw [iterate, h] at hu
        exact ⟨u, hu, huc⟩
      have := ih t' q (done + 1) f hcont' hq' hc (by omega)
      simp only [startLoop, h, htc, if_true]
      rw [this]
      congr 1
      omega

/-- While every iteration leaves the loop condition true the loop is still running when
the fuel is used up. -/
theorem startLoop_running (fuel : Nat) : ∀ (s : Processor) (done : Nat),
    (∀ j, j < fuel → ∃ t, iterate (j + 1) s = some t ∧ continues t = true) →
    startLoop fuel done s = Outcome.running := by
  induction fuel with
  | zero => intro s done _; rfl
  | succ f ih =>
    intro s done hcont
    obtain ⟨t, ht, htc⟩ := hcont 0 (by omega)
    cases h : cycle s with
    | none => simp [iterate, h] at ht
    | some t' =>
      simp [iterate, h] at ht
      subst ht
      have hcont' : ∀ j, j < f → ∃ t, iterate (j + 1) t' = some t ∧ continues t = true := by
        intro j hj
        obtain ⟨u, hu, huc⟩ := hcont (j + 1) (by omega)
        rw [iterate, h] at hu
        exact ⟨u, hu, huc⟩
      simp only [startLoop, h, htc, if_true]
      exact ih t' (done + 1) hcont'

/-- From `PC = 0`, over slots `0..n-1` free of JMP and BEQZ and with every data access in
range, `k ≤ n` iterations succeed, keep the instruction memory and leave `PC = 2k` with
`IR` at slot `k - 1`. -/
theorem iterate_straight (n : Nat) (p : Processor) (hn : n ≤ 255)
    (hpc : p.PC.address.val = 0)
    (hbody : ∀ k : Fin 256, k.val < n →
      (p.InstrMemory k).opcode.val ≠ JMP ∧ (p.InstrMemory k).opcode.val ≠ BEQZ)
    (hmem : ∀ k, k < n → ∀ s, iterate k p = some s → accessInRange s) :
    ∀ k, k ≤ n → ∃ s, iterate k p = some s ∧ s.InstrMemory = p.InstrMemory ∧
      s.PC.address.val = 2 * k ∧ (∀ j, k = j + 1 → s.IR.val = j) := by
  intro k
  induction k with
  | zero => intro _; exact ⟨p, rfl, rfl, by omega, fun j hj => by omega⟩
  | succ k ih =>
    intro hk
    obtain ⟨s, hs, him, hspc, _⟩ := ih (by omega)
    have hidx : fetchIndex s = ⟨k, by omega⟩ := by
      apply Fin.ext; simp only [fetchIndex]; omega
    have hf : fetch s = p.InstrMemory ⟨k, by omega⟩ := by
      unfold fetch; rw [him, hidx]
    obtain ⟨b1, b2⟩ := hbody ⟨k, by omega⟩ (by simp; omega)
    obtain ⟨q, hq, hqim, hqpc, hqir⟩ :=
      cycle_straight s (by rw [hf]; exact b1) (by rw [hf]; exact b2) (hmem k (by omega) s hs)
    refine ⟨q, ?_, hqim.trans him, by omega, ?_⟩
    · rw [iterate_succ_right, hs]; exact hq
    · intro j hj
      rw [hqir, hidx]; simp; omega

/-- C10: the run loop stops exactly after the first executed HLT.  For `n` in `0..255`,
an instruction memory whose slots `0..n-1` hold opcodes other than JMP, BEQZ and HLT and
whose slot `n` holds HLT, with every LD/SD access of the first `n` iterations in range,
`start` begun at `PC = 0` ends after exactly `n + 1` iterations (any fuel of at least
`n + 1` gives the halted outcome with that count, any smaller fuel leaves the loop
running); the HLT iteration changes no register and no data byte, and the final `PC` is
`2 (n + 1) mod 512`. -/
theorem start_stops_at_first_HLT (n : Nat) (p : Processor) (hn : n ≤ 255)
    (hpc : p.PC.address.val = 0)
    (hbody : ∀ k : Fin 256, k.val < n →
      (p.InstrMemory k).opcode.val ≠ JMP ∧ (p.InstrMemory k).opcode.val ≠ BEQZ ∧
      (p.InstrMemory k).opcode.val ≠ HLT)
    (hhlt : (p.InstrMemory ⟨n, by omega⟩).opcode.val = HLT)
    (hmem : ∀ k, k < n → ∀ s, iterate k p = some s → accessInRange s) :
    ∃ s final, iterate n p = some s ∧ cycle s = some final ∧
      (∀ fuel, n + 1 ≤ fuel → start fuel p = Outcome.halted final (n + 1)) ∧
      (∀ fuel, fuel ≤ n → start fuel p = Outcome.running) ∧
      final.RegisterFile = s.RegisterFile ∧ final.DataMemory = s.DataMemory ∧
      final.PC.address.val = (2 * (n + 1)) % 512 := by
  have hstr := iterate_straight n p hn hpc (fun k hk => ⟨(hbody k hk).1, (hbody k hk).2.1⟩) hmem
  obtain ⟨s, hs, him, hspc, _⟩ := hstr n (le_refl n)
  have hidx : fetchIndex s = ⟨n, by omega⟩ := by
    apply Fin.ext; simp only [fetchIndex]; omega
  have hf : fetch s = p.InstrMemory ⟨n, by omega⟩ := by
    unfold fetch; rw [him, hidx]
  have hcyc : cycle s = some (advance s) := cycle_HLT_eq s (by rw [hf]; exact hhlt)
  have hfin : iterate (n + 1) p = some (advance s) := by
    rw [iterate_succ_right, hs]; exact hcyc
  have hstop : continues (advance s) = false := by
    have : (advance s).InstrMemory (advance s).IR = p.InstrMemory ⟨n, by omega⟩ := by
      show s.InstrMemory (fetchIndex s) = _
      rw [him, hidx]
    simp [continues, this, hhlt]
  have hcont : ∀ j, j < n → ∃ t, iterate (j + 1) p = some t ∧ continues t = true := by
    intro j hj
    obtain ⟨t, ht, htim, _, htir⟩ := hstr (j + 1) (by omega)
    refine ⟨t, ht, ?_⟩
    have hir : t.IR = ⟨j, by omega⟩ := Fin.ext (htir j rfl)
    have := (hbody ⟨j, by omega⟩ hj).2.2
    simp [continues, htim, hir, this]
  refine ⟨s, advance s, hs, hcyc, ?_, ?_, rfl, rfl, ?_⟩
  · intro fuel hfuel
    have := startLoop_halts n p (advance s) 0 fuel hcont hfin hstop hfuel
    simpa [start] using this
  · intro fuel hfuel
    exact startLoop_running fuel p 0 (fun j hj => hcont j (by omega))
  · rw [advance_address]; omega

/-- C10 (instance): the program `ADDI R4, R0, 5; SD R1, R2, R3; HLT` (`n = 2`) halts
after exactly 3 iterations with `PC = 6`. -/
theorem start_stops_at_first_HLT_witness :
    (loaded [0, 600, 0, -2] [(1, 4, 0, 5), (10, 1, 2, 3), (14, 0, 0, 0)]).PC.address.val = 0 ∧
    ((loaded [0, 600, 0, -2] [(1, 4, 0, 5), (10, 1, 2, 3), (14, 0, 0, 0)]).InstrMemory
      2).opcode.val = HLT ∧
    ∃ final,
      start 3 (loaded [0, 600, 0, -2] [(1, 4, 0, 5), (10, 1, 2, 3), (14, 0, 0, 0)])
        = Outcome.halted final 3 ∧
      start 2 (loaded [0, 600, 0, -2] [(1, 4, 0, 5), (10, 1, 2, 3), (14, 0, 0, 0)])
        = Outcome.running ∧
      final.PC.address.val = 6 := by
  refine ⟨by decide, by decide, ?_⟩
  have hbody : ∀ k : Fin 256, k.val < 2 →
      ((loaded [0, 600, 0, -2] [(1, 4, 0, 5), (10, 1, 2, 3), (14, 0, 0, 0)]).InstrMemory
        k).opcode.val ≠ JMP ∧
      ((loaded [0, 600, 0, -2] [(1, 4, 0, 5), (10, 1, 2, 3), (14, 0, 0, 0)]).InstrMemory
        k).opcode.val ≠ BEQZ ∧
      ((loaded [0, 600, 0, -2] [(1, 4, 0, 5), (10, 1, 2, 3), (14, 0, 0, 0)]).InstrMemory
        k).opcode.val ≠ HLT := by
    intro k hk
    have hk' : k = 0 ∨ k = 1 := by
      rcases k with ⟨k, hlt⟩
      simp only [Fin.ext_iff]
      simp at hk ⊢
      omega
    rcases hk' with rfl | rfl <;> decide
  have hmem : ∀ k, k < 2 → ∀ s,
      iterate k (loaded [0, 600, 0, -2] [(1, 4, 0, 5), (10, 1, 2, 3), (14, 0, 0, 0)]) = some s →
      accessInRange s := by
    intro k hk s hs
    have h0 : ∀ s ∈ iterate 0
        (loaded [0, 600, 0, -2] [(1, 4, 0, 5), (10, 1, 2, 3), (14, 0, 0, 0)]),
        accessInRange s := by decide
    have h1 : ∀ s ∈ iterate 1
        (loaded [0, 600, 0, -2] [(1, 4, 0, 5), (10, 1, 2, 3), (14, 0, 0, 0)]),
        accessInRange s := by decide
    interval_cases k
    · exact h0 s hs
    · exact h1 s hs
  obtain ⟨s, final, _, _, h3, h4, _, _, h7⟩ := start_stops_at_first_HLT 2
    (loaded [0, 600, 0, -2] [(1, 4, 0, 5), (10, 1, 2, 3), (14, 0, 0, 0)])
    (by decide) (by decide) hbody (by decide) hmem
  exact ⟨final, h3 3 (le_refl 3), h4 2 (le_refl 2), h7⟩

/-! ## The range invariant -/

/-- The freshly constructed processor satisfies the range invariant. -/
theorem init_WF : Processor.init.WF :=
  ⟨fun _ => by simp [Processor.init], fun _ => by simp [Processor.init]⟩

/-- Every successful iteration ends in one of four shapes of post-state. -/
theorem cycle_shape (s q : Processor) (h : cycle s = some q) :
    q = advance s ∨ (∃ d x, q = writeReg s d x) ∨
      (∃ loc hl x, q = storeData s loc hl x) ∨ q = branchTo s := by
  have hlt : (fetch s).opcode.val < 16 := (fetch s).opcode.isLt
  simp only [cycle] at h
  generalize (fetch s).opcode.val = n at *
  interval_cases n <;> simp at h
  all_goals first
    | (subst h; exact Or.inl rfl)
    | (subst h; exact Or.inr (Or.inl ⟨_, _, rfl⟩))
    | (subst h; exact Or.inr (Or.inr (Or.inr rfl)))
    | (obtain ⟨_, rfl⟩ := h; exact Or.inr (Or.inl ⟨_, _, rfl⟩))
    | (obtain ⟨_, rfl⟩ := h; exact Or.inr (Or.inr (Or.inl ⟨_, _, _, rfl⟩)))
    | (split at h <;> simp at h <;> subst h <;> first | exact Or.inl rfl | exact Or.inr (Or.inr (Or.inr rfl)))

/-- The range invariant of the stored values is kept by every iteration. -/
theorem cycle_preserves_WF (s q : Processor) (hw : s.WF) (h : cycle s = some q) : q.WF := by
  obtain ⟨hR, hD⟩ := hw
  rcases cycle_shape s q h with rfl | ⟨d, x, rfl⟩ | ⟨loc, hl, x, rfl⟩ | rfl
  · exact ⟨hR, hD⟩
  · refine ⟨fun r => ?_, hD⟩
    by_cases hr : r = d
    · subst hr; rw [(writeReg_frame s r x).1]; exact toData_range x
    · rw [(writeReg_frame s d x).2.1 r hr]; exact hR r
  · refine ⟨hR, fun a => ?_⟩
    obtain ⟨f1, f2, f3, _⟩ := storeData_frame s loc hl x
    by_cases h1 : a.val = loc
    · have : a = ⟨loc, by omega⟩ := Fin.ext h1
      rw [this, f1]; unfold toUShort; omega
    · by_cases h2 : a.val = loc + 1
      · have : a = ⟨loc + 1, hl⟩ := Fin.ext h2
        rw [this, f2]; omega
      · rw [f3 a h1 h2]; exact hD a
  · exact ⟨hR, hD⟩

/-! ## Undefined opcodes, self-jumps and instruction memory -/

/-- Every successful iteration ends in one of four shapes of post-state, the branch shape
only for JMP and BEQZ. -/
theorem cycle_cases (s q : Processor) (h : cycle s = some q) :
    q = advance s ∨ (∃ d x, q = writeReg s d x) ∨
      (∃ loc hl x, q = storeData s loc hl x) ∨
      (q = branchTo s ∧ ((fetch s).opcode.val = JMP ∨ (fetch s).opcode.val = BEQZ)) := by
  have hlt : (fetch s).opcode.val < 16 := (fetch s).opcode.isLt
  simp only [cycle] at h
  generalize (fetch s).opcode.val = n at *
  interval_cases n <;> simp at h
  all_goals first
    | (subst h; exact Or.inl rfl)
    | (subst h; exact Or.inr (Or.inl ⟨_, _, rfl⟩))
    | (subst h; exact Or.inr (Or.inr (Or.inr ⟨rfl, by decide⟩)))
    | (obtain ⟨_, rfl⟩ := h; exact Or.inr (Or.inl ⟨_, _, rfl⟩))
    | (obtain ⟨_, rfl⟩ := h; exact Or.inr (Or.inr (Or.inl ⟨_, _, _, rfl⟩)))
    | (split at h <;> simp at h <;> subst h <;>
        first | exact Or.inl rfl | exact Or.inr (Or.inr (Or.inr ⟨rfl, by decide⟩)))

/-- An iteration fails only through its data-memory access. -/
theorem cycle_succeeds (s : Processor) (hin : accessInRange s) : ∃ q, cycle s = some q := by
  by_cases hj : (fetch s).opcode.val = JMP
  · exact ⟨_, cycle_JMP_eq s hj⟩
  by_cases hb : (fetch s).opcode.val = BEQZ
  · by_cases hz : s.RegisterFile (fetch s).op1 = 0
    · exact ⟨_, cycle_BEQZ_taken s hb hz⟩
    · exact ⟨_, cycle_BEQZ_not_taken s hb hz⟩
  obtain ⟨q, hq, _⟩ := cycle_straight s hj hb hin
  exact ⟨q, hq⟩

/-- An iteration that fails made an LD or SD access outside `DataMemory`. -/
theorem cycle_none_iff (s : Processor) : cycle s = none ↔ ¬ accessInRange s := by
  constructor
  · intro h hin
    obtain ⟨q, hq⟩ := cycle_succeeds s hin
    rw [h] at hq
    exact Option.noConfusion hq
  · intro hin
    by_contra hne
    obtain ⟨q, hq⟩ := Option.ne_none_iff_exists'.mp hne
    apply hin
    have hlt : (fetch s).opcode.val < 16 := (fetch s).opcode.isLt
    simp only [cycle] at hq
    unfold accessInRange
    generalize (fetch s).opcode.val = n at *
    interval_cases n <;> simp at hq ⊢
    all_goals exact hq.1

theorem cycle_InstrMemory (s q : Processor) (h : cycle s = some q) :
    q.InstrMemory = s.InstrMemory := by
  rcases cycle_cases s q h with rfl | ⟨d, x, rfl⟩ | ⟨loc, hl, x, rfl⟩ | ⟨rfl, _⟩ <;> rfl

theorem iterate_InstrMemory (k : Nat) : ∀ (s q : Processor), iterate k s = some q →
    q.InstrMemory = s.InstrMemory := by
  induction k with
  | zero => intro s q h; simp [iterate] at h; rw [h]
  | succ k ih =>
    intro s q h
    rw [iterate] at h
    cases hc : cycle s with
    | none => simp [hc] at h
    | some t =>
      rw [hc] at h
      exact (ih t q h).trans (cycle_InstrMemory s t hc)

theorem startLoop_InstrMemory (fuel : Nat) : ∀ (s final : Processor) (done n : Nat),
    startLoop fuel done s = Outcome.halted final n → final.InstrMemory = s.InstrMemory := by
  induction fuel with
  | zero => intro s final done n h; simp [startLoop] at h
  | succ f ih =>
    intro s final done n h
    cases hc : cycle s with
    | none => simp [startLoop, hc] at h
    | some t =>
      simp only [startLoop, hc] at h
      by_cases hcont : continues t = true
      · simp only [hcont, if_true] at h
        exact (ih t final (done + 1) n h).trans (cycle_InstrMemory s t hc)
      · simp only [hcont] at h
        simp at h
        rw [← h.1]
        exact cycle_InstrMemory s t hc

theorem cycle_default_eq (p : Processor)
    (hop : (fetch p).opcode.val ∉ [ADD, ADDI, SUB, SUBI, MUL, MULI, LD, SD, JMP, BEQZ, HLT]) :
    cycle p = some (advance p) := by
  have hlt : (fetch p).opcode.val < 16 := (fetch p).opcode.isLt
  simp only [cycle]
  generalize (fetch p).opcode.val = n at *
  interval_cases n <;> simp at hop ⊢

/-- C11: when the fetched opcode is none of the eleven defined values, that is 4, 5, 9,
11 or 15, one iteration succeeds for any operand fields, leaves all registers, all data
bytes and all instruction slots unchanged, advances `PC` to `(PC + 2) mod 512`, and the loop
condition stays true, so the loop goes on with the next iteration. -/
theorem undefined_opcode_is_skipped (p : Processor)
    (hop : (fetch p).opcode.val ∉ [ADD, ADDI, SUB, SUBI, MUL, MULI, LD, SD, JMP, BEQZ, HLT]) :
    (fetch p).opcode.val ∈ [4, 5, 9, 11, 15] ∧
    ∃ q, cycle p = some q ∧ q.RegisterFile = p.RegisterFile ∧
      q.DataMemory = p.DataMemory ∧ q.InstrMemory = p.InstrMemory ∧
      q.PC.address.val = (p.PC.address.val + 2) % 512 ∧ continues q = true ∧
      (∀ fuel done, startLoop (fuel + 1) done p = startLoop fuel (done + 1) q) := by
  have hc := cycle_default_eq p hop
  have hcont : continues (advance p) = true := by
    have e : (advance p).InstrMemory (advance p).IR = fetch p := rfl
    have hne : (fetch p).opcode.val ≠ HLT := fun h => hop (by rw [h]; decide)
    simp [continues, e, hne]
  refine ⟨?_, advance p, hc, rfl, rfl, rfl, advance_address p, hcont, ?_⟩
  · have hlt : (fetch p).opcode.val < 16 := (fetch p).opcode.isLt
    generalize (fetch p).opcode.val = n at *
    interval_cases n <;> simp at hop ⊢
  · intro fuel done
    simp only [startLoop, hc, hcont, if_true]

/-- C11 (instance): opcode 9 with operands 1, 2, 3 at `PC = 0` is skipped: registers and
the loop condition are as before and `PC = 2`. -/
theorem undefined_opcode_is_skipped_witness :
    (fetch (loaded [5, 6, 7] [(9, 1, 2, 3)])).opcode.val = 9 ∧
    ∃ q, cycle (loaded [5, 6, 7] [(9, 1, 2, 3)]) = some q ∧ q.RegisterFile 1 = 6 ∧
      q.PC.address.val = 2 ∧ continues q = true := by
  refine ⟨by decide, ?_⟩
  obtain ⟨_, q, hq, hr, _, _, hpc, hc, _⟩ :=
    undefined_opcode_is_skipped (loaded [5, 6, 7] [(9, 1, 2, 3)]) (by decide)
  refine ⟨q, hq, by rw [hr]; decide, ?_, hc⟩
  rw [hpc]; decide

theorem branchTo_congr (a b : Processor) (h1 : advance a = advance b)
    (h2 : fetch a = fetch b) : branchTo a = branchTo b := by
  unfold branchTo
  rw [h1, h2]

/-- C14: when the fetched instruction is a JMP to itself (`op2 = 0`, `op3 = 0`) at
`PC = A`, one iteration succeeds and returns the same `PC`, registers, data memory and
instruction memory, with the loop condition true; the state it returns is a fixed point of
the iteration, so every later iteration returns it again and for every `n` the loop is
still running after `n` iterations. -/
theorem self_JMP_runs_forever (p : Processor) (hop : (fetch p).opcode.val = JMP)
    (h2 : (fetch p).op2.val = 0) (h3 : (fetch p).op3.val = 0) :
    ∃ q, cycle p = some q ∧ q.PC = p.PC ∧ q.RegisterFile = p.RegisterFile ∧
      q.DataMemory = p.DataMemory ∧ q.InstrMemory = p.InstrMemory ∧
      continues q = true ∧ cycle q = some q ∧
      (∀ n, iterate (n + 1) p = some q) ∧ (∀ n, start n p = Outcome.running) := by
  have haddr : (branchTo p).PC.address = p.PC.address := by
    apply Fin.ext
    have e := branchTo_address p
    rw [h2, h3] at e
    have e0 : specSign8 (16 * 0 + 0) = 0 := by decide
    rw [e0] at e
    have hlt := p.PC.address.isLt
    omega
  have hpc : (branchTo p).PC = p.PC := by
    have e1 : (branchTo p).PC.isData = p.PC.isData := rfl
    cases hp : p.PC with
    | mk d a =>
      cases hq : (branchTo p).PC with
      | mk d' a' =>
        rw [hp] at haddr e1; rw [hq] at haddr e1
        simp only at haddr e1
        rw [haddr, e1]
  have hfi : fetchIndex (branchTo p) = fetchIndex p := by
    apply Fin.ext; simp only [fetchIndex, hpc]
  have hfetch : fetch (branchTo p) = fetch p := by
    show (branchTo p).InstrMemory (fetchIndex (branchTo p)) = p.InstrMemory (fetchIndex p)
    rw [hfi]; rfl
  have hcont : continues (branchTo p) = true := by
    have e : (branchTo p).InstrMemory (branchTo p).IR = fetch p := rfl
    simp [continues, e, hop]
  have hfix : branchTo (branchTo p) = branchTo p := by
    have hadv : advance (branchTo p) = advance p := by
      simp only [advance, hfi, hpc]; rfl
    exact branchTo_congr (branchTo p) p hadv hfetch
  have hq : cycle (branchTo p) = some (branchTo p) := by
    rw [cycle_JMP_eq (branchTo p) (by rw [hfetch]; exact hop), hfix]
  have hiter : ∀ n, iterate (n + 1) p = some (branchTo p) := by
    intro n
    induction n with
    | zero => simp [iterate, cycle_JMP_eq p hop]
    | succ n ih => rw [iterate_succ_right, ih]; exact hq
  refine ⟨branchTo p, cycle_JMP_eq p hop, hpc, rfl, rfl, rfl, hcont, hq, hiter, ?_⟩
  intro n
  exact startLoop_running n p 0 (fun j _ => ⟨branchTo p, hiter j, hcont⟩)

/-- C14 (instance): a processor whose slots all hold `JMP 0 0`, at `PC = 100`, is still
running after 1000 iterations with `PC = 100`. -/
theorem self_JMP_runs_forever_witness :
    (fetch { loaded [] (List.replicate 51 (12, 0, 0, 0)) with PC := ⟨0, 100⟩ }).opcode.val = JMP ∧
    start 1000 { loaded [] (List.replicate 51 (12, 0, 0, 0)) with PC := ⟨0, 100⟩ }
      = Outcome.running ∧
    ∃ q, iterate 1000 { loaded [] (List.replicate 51 (12, 0, 0, 0)) with PC := ⟨0, 100⟩ }
      = some q ∧ q.PC.address.val = 100 := by
  obtain ⟨q, _, hpc, _, _, _, _, _, hit, hrun⟩ := self_JMP_runs_forever
    { loaded [] (List.replicate 51 (12, 0, 0, 0)) with PC := ⟨0, 100⟩ }
    (by decide) (by decide) (by decide)
  exact ⟨by decide, hrun 1000, q, hit 999, by rw [hpc]; rfl⟩

/-- C18: instruction memory is immutable during execution.  Whatever the fetched opcode,
an iteration that succeeds leaves all 256 instruction slots unchanged, and it succeeds
whenever its data access (if any) is in range; hence after any number of iterations, and
in the state in which `start` halts, the instruction memory is the initial one. -/
theorem InstrMemory_is_immutable (p : Processor) :
    (∀ q, cycle p = some q → q.InstrMemory = p.InstrMemory) ∧
    (accessInRange p → ∃ q, cycle p = some q ∧ q.InstrMemory = p.InstrMemory) ∧
    (∀ k q, iterate k p = some q → q.InstrMemory = p.InstrMemory) ∧
    (∀ fuel final n, start fuel p = Outcome.halted final n →
      final.InstrMemory = p.InstrMemory) := by
  refine ⟨cycle_InstrMemory p, ?_, fun k q h => iterate_InstrMemory k p q h,
    fun fuel final n h => startLoop_InstrMemory fuel p final 0 n h⟩
  intro hin
  obtain ⟨q, hq⟩ := cycle_succeeds p hin
  exact ⟨q, hq, cycle_InstrMemory p q hq⟩

/-- C18 (instance): `SD R1, R2, R3` with `R1 + R2 = 600` keeps the SD instruction in
slot 0. -/
theorem InstrMemory_is_immutable_witness :
    accessInRange (loaded [0, 600, 0, -2] [(10, 1, 2, 3)]) ∧
    ∃ q, cycle (loaded [0, 600, 0, -2] [(10, 1, 2, 3)]) = some q ∧
      q.InstrMemory 0 = ⟨10, 1, 2, 3⟩ := by
  refine ⟨by decide, ?_⟩
  obtain ⟨q, hq, him⟩ :=
    (InstrMemory_is_immutable (loaded [0, 600, 0, -2] [(10, 1, 2, 3)])).2.1 (by decide)
  exact ⟨q, hq, by rw [him]; decide⟩

/-- C19: fetch and register accesses are always in bounds.  In every state reached by
iterating the loop body from any state, `PC` is below 512, the fetch index `PC/2` is
below 256 and the three register indices of the fetched instruction are below 16; this
covers the wrap of `PC` from 510 to 0; and an iteration can fail only through an LD or SD
access outside `DataMemory`, never through the fetch or a register access. -/
theorem fetch_and_registers_in_bounds (p : Processor) :
    (∀ k q, iterate k p = some q →
      q.PC.address.val < 512 ∧ (fetchIndex q).val = q.PC.address.val / 2 ∧
      (fetchIndex q).val < 256 ∧ (fetch q).op1.val < 16 ∧ (fetch q).op2.val < 16 ∧
      (fetch q).op3.val < 16 ∧ (cycle q = none ↔ ¬ accessInRange q)) ∧
    (p.PC.address.val = 510 →
      (advance p).PC.address.val = 0 ∧ (fetchIndex (advance p)).val = 0) ∧
    ((fetch p).opcode.val ≠ LD → (fetch p).opcode.val ≠ SD → ∃ q, cycle p = some q) := by
  refine ⟨fun k q _ => ⟨q.PC.address.isLt, rfl, (fetchIndex q).isLt, (fetch q).op1.isLt,
    (fetch q).op2.isLt, (fetch q).op3.isLt, cycle_none_iff q⟩, ?_, ?_⟩
  · intro h
    have h1 := advance_address p
    rw [h] at h1
    refine ⟨h1, ?_⟩
    simp only [fetchIndex, h1]
  · intro hl hs
    exact cycle_succeeds p ⟨fun h => absurd h hl, fun h => absurd h hs⟩

/-- C19 (instance): at `PC = 510` the fetch reads slot 255 and the next fetch, after the
wrap, reads slot 0; at the odd `PC = 101` the fetch reads slot 50. -/
theorem fetch_and_registers_in_bounds_witness :
    (fetchIndex { Processor.init with PC := ⟨0, 510⟩ }).val = 255 ∧
    (advance { Processor.init with PC := ⟨0, 510⟩ }).PC.address.val = 0 ∧
    (fetchIndex (advance { Processor.init with PC := ⟨0, 510⟩ })).val = 0 ∧
    (fetchIndex { Processor.init with PC := ⟨0, 101⟩ }).val = 50 := by
  obtain ⟨h1, h2⟩ :=
    (fetch_and_registers_in_bounds { Processor.init with PC := ⟨0, 510⟩ }).2.1 rfl
  exact ⟨by decide, h1, h2, by decide⟩

/-! ## Alignment of the program counter -/

theorem branchTo_parity (s : Processor) :
    (branchTo s).PC.address.val % 2 = (s.PC.address.val + (fetch s).op3.val) % 2 := by
  have e := branchTo_address s
  have h2 := (fetch s).op2.isLt
  have h3 := (fetch s).op3.isLt
  have hlt := (branchTo s).PC.address.isLt
  unfold specSign8 at e
  split at e <;> omega

/-- One iteration keeps `PC` even when the fetched instruction, if it is a JMP or BEQZ,
has an even `op3`. -/
theorem cycle_PC_even (s q : Processor) (he : s.PC.address.val % 2 = 0)
    (hbr : (fetch s).opcode.val = JMP ∨ (fetch s).opcode.val = BEQZ →
      (fetch s).op3.val % 2 = 0)
    (h : cycle s = some q) : q.PC.address.val % 2 = 0 := by
  have ha := advance_address s
  rcases cycle_cases s q h with rfl | ⟨d, x, rfl⟩ | ⟨loc, hl, x, rfl⟩ | ⟨rfl, hop⟩
  · omega
  · have : (writeReg s d x).PC.address.val = (advance s).PC.address.val := rfl
    omega
  · have : (storeData s loc hl x).PC.address.val = (advance s).PC.address.val := rfl
    omega
  · have := branchTo_parity s
    have := hbr hop
    omega

theorem iterate_PC_even (k : Nat) : ∀ (s q : Processor), s.PC.address.val % 2 = 0 →
    (∀ slot, (s.InstrMemory slot).opcode.val = JMP ∨ (s.InstrMemory slot).opcode.val = BEQZ →
      (s.InstrMemory slot).op3.val % 2 = 0) →
    iterate k s = some q → q.PC.address.val % 2 = 0 := by
  induction k with
  | zero => intro s q he _ h; simp [iterate] at h; rw [← h]; exact he
  | succ k ih =>
    intro s q he hbr h
    rw [iterate] at h
    cases hc : cycle s with
    | none => simp [hc] at h
    | some t =>
      rw [hc] at h
      have him := cycle_InstrMemory s t hc
      exact ih t q (cycle_PC_even s t he (hbr (fetchIndex s)) hc)
        (fun slot => by rw [him]; exact hbr slot) h

/-- C20: `PC` alignment.  If `PC` is even and every JMP and BEQZ stored in instruction
memory has an even `op3` (an even offset), then `PC` is even after every iteration, so
in every state reached the fetched slot is `PC/2` with no rounding (`2 * (PC/2) = PC`);
conversely a JMP, or a BEQZ whose register is zero, with an odd `op3`, fetched at an even
`PC`, leaves `PC` odd. -/
theorem PC_alignment_invariant (p : Processor) (he : p.PC.address.val % 2 = 0) :
    ((∀ slot, (p.InstrMemory slot).opcode.val = JMP ∨ (p.InstrMemory slot).opcode.val = BEQZ →
        (p.InstrMemory slot).op3.val % 2 = 0) →
      ∀ k q, iterate k p = some q →
        q.PC.address.val % 2 = 0 ∧ 2 * (fetchIndex q).val = q.PC.address.val) ∧
    ((fetch p).opcode.val = JMP ∨
        ((fetch p).opcode.val = BEQZ ∧ p.RegisterFile (fetch p).op1 = 0) →
      (fetch p).op3.val % 2 = 1 →
      ∃ q, cycle p = some q ∧ q.PC.address.val % 2 = 1) := by
  constructor
  · intro hbr k q h
    have hq := iterate_PC_even k p q he hbr h
    refine ⟨hq, ?_⟩
    simp only [fetchIndex]
    omega
  · intro hop hodd
    have hpar := branchTo_parity p
    rcases hop with hj | ⟨hb, hz⟩
    · exact ⟨branchTo p, cycle_JMP_eq p hj, by omega⟩
    · exact ⟨branchTo p, cycle_BEQZ_taken p hb hz, by omega⟩

/-- C20 (instance): from `PC = 0` the program `ADDI; JMP +4; …` is at the even `PC = 6`
after two iterations, while a JMP with offset 3 at `PC = 0` leaves the odd `PC = 3`. -/
theorem PC_alignment_invariant_witness :
    (loaded [] [(1, 0, 0, 3), (12, 0, 0, 4), (14, 0, 0, 0)]).PC.address.val % 2 = 0 ∧
    (∃ q, iterate 2 (loaded [] [(1, 0, 0, 3), (12, 0, 0, 4), (14, 0, 0, 0)]) = some q ∧
      q.PC.address.val % 2 = 0) ∧
    (∃ q, cycle (loaded [] [(12, 0, 0, 3)]) = some q ∧ q.PC.address.val % 2 = 1) := by
  refine ⟨by decide, ?_, ?_⟩
  · obtain ⟨q, hq⟩ : ∃ q, iterate 2
        (loaded [] [(1, 0, 0, 3), (12, 0, 0, 4), (14, 0, 0, 0)]) = some q :=
      Option.isSome_iff_exists.mp (by decide)
    exact ⟨q, hq, ((PC_alignment_invariant
      (loaded [] [(1, 0, 0, 3), (12, 0, 0, 4), (14, 0, 0, 0)]) (by decide)).1
      (by set_option maxRecDepth 8000 in decide) 2 q hq).1⟩
  · exact (PC_alignment_invariant (loaded [] [(12, 0, 0, 3)]) (by decide)).2
      (Or.inl (by decide)) (by decide)

/-! ## The loader -/

/-- C15: for every 9-bit address and every instruction, `iload` returns `-1` and leaves
the instruction memory unchanged exactly when the address is odd (511 included), in which
case the whole processor is unchanged; otherwise it returns `0`, stores the instruction in
slot `address / 2`, an index below 256, and leaves every other slot, all registers and the
data memory unchanged. -/
theorem iload_rejects_odd_addresses (p : Processor) (addr : MemoryAddress) (i : Instruction) :
    ((iload p addr i).1 = -1 ↔ addr.address.val % 2 = 1) ∧
    (addr.address.val % 2 = 1 → (iload p addr i).2 = p) ∧
    (addr.address.val = 511 → (iload p addr i).1 = -1 ∧ (iload p addr i).2 = p) ∧
    (addr.address.val % 2 = 0 →
      (iload p addr i).1 = 0 ∧ addr.address.val / 2 < 256 ∧
      (∀ slot : Fin 256, (iload p addr i).2.InstrMemory slot =
        if slot.val = addr.address.val / 2 then i else p.InstrMemory slot) ∧
      (iload p addr i).2.RegisterFile = p.RegisterFile ∧
      (iload p addr i).2.DataMemory = p.DataMemory) := by
  have hlt := addr.address.isLt
  have hodd : addr.address.val % 2 = 1 → iload p addr i = (-1, p) := by
    intro h
    simp [iload, h]
  refine ⟨?_, ?_, ?_, ?_⟩
  · constructor
    · intro h
      by_contra hne
      have he : addr.address.val % 2 = 0 := by omega
      simp [iload, he] at h
    · intro h; rw [hodd h]
  · intro h; rw [hodd h]
  · intro h
    have h1 : addr.address.val % 2 = 1 := by omega
    rw [hodd h1]; exact ⟨rfl, rfl⟩
  · intro he
    refine ⟨by simp [iload, he], by omega, ?_, by simp [iload, he], by simp [iload, he]⟩
    intro slot
    simp only [iload, he, ne_eq, not_true_eq_false, if_false]
    by_cases hs : slot.val = addr.address.val / 2
    · have : slot = ⟨addr.address.val >>> 1, by rw [Nat.shiftRight_eq_div_pow]; omega⟩ := by
        apply Fin.ext; simp only [Nat.shiftRight_eq_div_pow]; omega
      rw [this]; simp [Nat.shiftRight_eq_div_pow]
    · have : slot ≠ ⟨addr.address.val >>> 1, by rw [Nat.shiftRight_eq_div_pow]; omega⟩ := by
        intro h; apply hs; rw [h]; simp [Nat.shiftRight_eq_div_pow]
      rw [Function.update_noteq this]; simp [hs]


/-- The operation `x & 0xff` on an `int` is reduction modulo 256. -/
theorem intAnd_255 (x : Int) : intAnd x 255 = x % 256 := by
  unfold intAnd
  have e : intBits 255 = 2 ^ 8 - 1 := by decide
  rw [e, Nat.and_pow_two_sub_one_eq_mod]
  unfold ofIntBits intBits
  have h : (x % 4294967296).toNat % 2 ^ 8 < 256 := Nat.mod_lt _ (by decide)
  rw [if_pos (by omega)]
  omega

/-- The byte `dload` stores for `(val >> 8) & 0xff` is the high byte of the 16-bit pattern
of `val`, and the one for `val & 0xff` the low byte. -/
theorem dload_bytes (v : Int) :
    toDataElement (intAnd (v >>> (8 : Nat)) 255) = toUShort v / 256 ∧
    toDataElement (intAnd v 255) = toUShort v % 256 := by
  rw [intAnd_255, intAnd_255, Int.shiftRight_eq_div_pow]
  unfold toDataElement toUShort
  constructor <;> omega

/-- The state `dload` returns for an in-range offset. -/
theorem dload_eq (p : Processor) (addr : MemoryAddress) (v : Int)
    (ho : addr.address.val + 1 < 512) :
    dload p addr v = some { p with DataMemory :=
      (Function.update (Function.update p.DataMemory addr.address (toUShort v / 256))
        ⟨addr.address.val + 1, ho⟩ (toUShort v % 256)) } := by
  obtain ⟨b1, b2⟩ := dload_bytes v
  simp only [dload, ho, dite_true, b1, b2]

/-- C16: for every data offset `o` in `0..510` and every 16-bit value `v`, negative ones
included, `dload` succeeds and stores the high byte of the 16-bit two's-complement pattern
of `v` at `DataMemory[o]` and the low byte at `DataMemory[o+1]`, leaving every other data
byte, every register and every instruction slot unchanged; the resulting data memory is
the one an SD of `v` to absolute address `512 + o` produces. -/
theorem dload_stores_big_endian (p : Processor) (addr : MemoryAddress) (v : Int)
    (ho : addr.address.val + 1 < 512) (hv : -32768 ≤ v ∧ v ≤ 32767) :
    ∃ q, dload p addr v = some q ∧
      (∃ pat : Nat, pat < 65536 ∧ ((pat : Int) - v) % 65536 = 0 ∧
        (v < 0 → (pat : Int) = v + 65536) ∧ (0 ≤ v → (pat : Int) = v) ∧
        q.DataMemory addr.address = pat / 256 ∧
        q.DataMemory ⟨addr.address.val + 1, ho⟩ = pat % 256) ∧
      (∀ a : Fin 512, a.val ≠ addr.address.val → a.val ≠ addr.address.val + 1 →
        q.DataMemory a = p.DataMemory a) ∧
      q.RegisterFile = p.RegisterFile ∧ q.InstrMemory = p.InstrMemory ∧
      q.DataMemory = (storeData p addr.address.val ho v).DataMemory ∧
      (∀ s : Processor, (fetch s).opcode.val = SD → s.DataMemory = p.DataMemory →
        s.RegisterFile (fetch s).op1 + s.RegisterFile (fetch s).op2
          = 512 + (addr.address.val : Int) →
        s.RegisterFile (fetch s).op3 = v →
        ∃ t, cycle s = some t ∧ t.DataMemory = q.DataMemory) := by
  obtain ⟨b1, b2⟩ := dload_bytes v
  have hne : addr.address ≠ ⟨addr.address.val + 1, ho⟩ := by
    intro h; have := congrArg Fin.val h; simp at this
  have hq := dload_eq p addr v ho
  have hsd : (storeData p addr.address.val ho v).DataMemory =
      Function.update (Function.update p.DataMemory addr.address (toUShort v / 256))
        ⟨addr.address.val + 1, ho⟩ (toUShort v % 256) := by
    funext a
    obtain ⟨f1, f2, f3, _⟩ := storeData_frame p addr.address.val ho v
    by_cases h2 : a = ⟨addr.address.val + 1, ho⟩
    · rw [h2, f2, Function.update_same]
    · rw [Function.update_noteq h2]
      by_cases h1 : a = addr.address
      · rw [h1, Function.update_same]; exact f1
      · rw [Function.update_noteq h1]
        exact f3 a (fun h => h1 (Fin.ext h)) (fun h => h2 (Fin.ext h))
  refine ⟨_, hq, ⟨toUShort v, ?_, ?_, ?_, ?_, ?_, ?_⟩, ?_, rfl, rfl, hsd.symm, ?_⟩
  · unfold toUShort; omega
  · unfold toUShort; omega
  · intro _; unfold toUShort; omega
  · intro _; unfold toUShort; omega
  · simp only [Function.update_noteq hne, Function.update_same]
  · simp only [Function.update_same]
  · intro a h1 h2
    have n1 : a ≠ addr.address := fun h => h1 (congrArg Fin.val h)
    have n2 : a ≠ ⟨addr.address.val + 1, ho⟩ := fun h => h2 (congrArg Fin.val h)
    simp only [Function.update_noteq n2, Function.update_noteq n1]
  · intro s hop hdm hsum hval
    have e : toUShort (s.RegisterFile (fetch s).op1 + s.RegisterFile (fetch s).op2 - 512)
        = addr.address.val := by
      rw [hsum]; unfold toUShort; omega
    have hr : toUShort (s.RegisterFile (fetch s).op1 + s.RegisterFile (fetch s).op2 - 512) + 1
        < 512 := by rw [e]; exact ho
    have hc := cycle_SD_eq s hop hr
    simp only [e, hval] at hc
    refine ⟨_, hc, ?_⟩
    show (storeData s addr.address.val ho v).DataMemory = _
    rw [← hsd]
    simp only [storeData, hdm]

/-- C16 (instance): `dload` of `-2` at data offset 88 stores `0xFF` at 88 and `0xFE` at 89
and leaves offset 90 at 0. -/
theorem dload_stores_big_endian_witness :
    ∃ q, dload Processor.init ⟨1, 88⟩ (-2) = some q ∧
      q.DataMemory 88 = 255 ∧ q.DataMemory 89 = 254 ∧ q.DataMemory 90 = 0 := by
  obtain ⟨q, hq, ⟨pat, hp, hc, hneg, _, hhi, hlo⟩, hframe, _⟩ :=
    dload_stores_big_endian Processor.init ⟨1, 88⟩ (-2) (by decide) (by decide)
  have hpat : pat = 65534 := by
    have := hneg (by decide)
    omega
  subst hpat
  refine ⟨q, hq, hhi, hlo, ?_⟩
  rw [hframe 90 (by decide) (by decide)]; rfl

/-! ## End-to-end scenarios -/

/-- A run whose first `m` iterations keep the loop condition true and whose iteration
`m + 1` makes it false has exactly one outcome per fuel: running below `m + 1`, halted
after `m + 1` iterations from there on. -/
theorem start_outcomes (m : Nat) (s q : Processor)
    (hcont : ∀ j, j < m → ∃ t, iterate (j + 1) s = some t ∧ continues t = true)
    (hq : iterate (m + 1) s = some q) (hstop : continues q = false) (fuel : Nat) :
    (fuel ≤ m → start fuel s = Outcome.running) ∧
    (m + 1 ≤ fuel → start fuel s = Outcome.halted q (m + 1)) := by
  constructor
  · intro hf
    exact startLoop_running fuel s 0 (fun j hj => hcont j (by omega))
  · intro hf
    have := startLoop_halts m s q 0 fuel hcont hq hstop hf
    simpa [start] using this

/-- C12 (as stated, refuted): the run of the scenario program from zeroed registers does
not end with `R0 = 3`, `R1 = 4`, `R2 = 12`, whatever the fuel. -/
theorem scenario_arith_not_3_4_12 :
    ¬ ∃ fuel final n,
      start fuel (loaded [] [(1, 0, 0, 3), (1, 1, 0, 4), (6, 2, 0, 1), (14, 0, 0, 0)])
        = Outcome.halted final n ∧
      final.RegisterFile 0 = 3 ∧ final.RegisterFile 1 = 4 ∧ final.RegisterFile 2 = 12 := by
  rintro ⟨fuel, final, n, hrun, _, h1, _⟩
  obtain ⟨q, hq⟩ : ∃ q, iterate 4
      (loaded [] [(1, 0, 0, 3), (1, 1, 0, 4), (6, 2, 0, 1), (14, 0, 0, 0)]) = some q :=
    Option.isSome_iff_exists.mp (by decide)
  have hstop : continues q = false := by
    have k : (iterate 4 (loaded [] [(1, 0, 0, 3), (1, 1, 0, 4), (6, 2, 0, 1), (14, 0, 0, 0)])).map
        continues = some false := by decide
    rw [hq] at k; simpa using k
  have hr1 : q.RegisterFile 1 = 7 := by
    have k : (iterate 4 (loaded [] [(1, 0, 0, 3), (1, 1, 0, 4), (6, 2, 0, 1), (14, 0, 0, 0)])).map
        (fun s => s.RegisterFile 1) = some 7 := by decide
    rw [hq] at k; simpa using k
  have hcont : ∀ j, j < 3 → ∃ t, iterate (j + 1)
      (loaded [] [(1, 0, 0, 3), (1, 1, 0, 4), (6, 2, 0, 1), (14, 0, 0, 0)]) = some t ∧
      continues t = true := by
    have k : ∀ j, j < 3 → (iterate (j + 1)
        (loaded [] [(1, 0, 0, 3), (1, 1, 0, 4), (6, 2, 0, 1), (14, 0, 0, 0)])).map continues
        = some true := by decide
    intro j hj
    obtain ⟨t, ht, htc⟩ := Option.map_eq_some'.mp (k j hj)
    exact ⟨t, ht, htc⟩
  obtain ⟨hlow, hhigh⟩ := start_outcomes 3 _ q hcont hq hstop fuel
  by_cases hf : fuel ≤ 3
  · rw [hlow hf] at hrun
    exact Outcome.noConfusion hrun
  · rw [hhigh (by omega)] at hrun
    have e : q = final := by
      injection hrun
    rw [← e, hr1] at h1
    exact absurd h1 (by decide)

/-- C12 (amended): with all registers initialised to 0 and the program
`ADDI R0,R0,+3; ADDI R1,R0,+4; MUL R2,R0,R1; HLT` loaded at code offsets 0, 2, 4, 6,
`start` halts after exactly 4 iterations and the final register values are `R0 = 3`,
`R1 = 7` and `R2 = 21`. -/
theorem scenario_arith_final_registers :
    ∃ final,
      (∀ fuel, 4 ≤ fuel →
        start fuel (loaded [] [(1, 0, 0, 3), (1, 1, 0, 4), (6, 2, 0, 1), (14, 0, 0, 0)])
          = Outcome.halted final 4) ∧
      (∀ fuel, fuel ≤ 3 →
        start fuel (loaded [] [(1, 0, 0, 3), (1, 1, 0, 4), (6, 2, 0, 1), (14, 0, 0, 0)])
          = Outcome.running) ∧
      (∀ r, (loaded [] [(1, 0, 0, 3), (1, 1, 0, 4), (6, 2, 0, 1), (14, 0, 0, 0)]).RegisterFile r
        = 0) ∧
      final.RegisterFile 0 = 3 ∧ final.RegisterFile 1 = 7 ∧ final.RegisterFile 2 = 21 := by
  obtain ⟨q, hq⟩ : ∃ q, iterate 4
      (loaded [] [(1, 0, 0, 3), (1, 1, 0, 4), (6, 2, 0, 1), (14, 0, 0, 0)]) = some q :=
    Option.isSome_iff_exists.mp (by decide)
  have hstop : continues q = false := by
    have k : (iterate 4 (loaded [] [(1, 0, 0, 3), (1, 1, 0, 4), (6, 2, 0, 1), (14, 0, 0, 0)])).map
        continues = some false := by decide
    rw [hq] at k; simpa using k
  have hregs : (q.RegisterFile 0, q.RegisterFile 1, q.RegisterFile 2) = (3, 7, 21) := by
    have k : (iterate 4 (loaded [] [(1, 0, 0, 3), (1, 1, 0, 4), (6, 2, 0, 1), (14, 0, 0, 0)])).map
        (fun s => (s.RegisterFile 0, s.RegisterFile 1, s.RegisterFile 2))
        = some (3, 7, 21) := by decide
    rw [hq] at k; simpa using k
  have hcont : ∀ j, j < 3 → ∃ t, iterate (j + 1)
      (loaded [] [(1, 0, 0, 3), (1, 1, 0, 4), (6, 2, 0, 1), (14, 0, 0, 0)]) = some t ∧
      continues t = true := by
    have k : ∀ j, j < 3 → (iterate (j + 1)
        (loaded [] [(1, 0, 0, 3), (1, 1, 0, 4), (6, 2, 0, 1), (14, 0, 0, 0)])).map continues
        = some true := by decide
    intro j hj
    obtain ⟨t, ht, htc⟩ := Option.map_eq_some'.mp (k j hj)
    exact ⟨t, ht, htc⟩
  simp only [Prod.mk.injEq] at hregs
  refine ⟨q, fun fuel hf => (start_outcomes 3 _ q hcont hq hstop fuel).2 hf,
    fun fuel hf => (start_outcomes 3 _ q hcont hq hstop fuel).1 hf, by decide,
    hregs.1, hregs.2.1, hregs.2.2⟩


/-! ## The dump format and the load scenario -/

theorem instrPad_even (i : Fin 256) :
    instrPad i.val ++ toString (i.val <<< 1) = specAddr4 (2 * i.val) := by
  revert i
  set_option maxRecDepth 100000 in decide

theorem instrPad_odd (i : Fin 256) :
    instrPad i.val ++ toString ((i.val <<< 1) + 1) = specAddr4 (2 * i.val + 1) := by
  revert i
  set_option maxRecDepth 100000 in decide

theorem dataPad_address (j : Fin 512) :
    dataPad j.val ++ toString (512 + j.val) = specAddr4 (512 + j.val) := by
  revert j
  set_option maxRecDepth 100000 in decide

theorem bitset4_mod (v : Nat) : bitset4 v = bitset4 (v % 16) := by
  have h : ∀ i, i < 4 → (v % 16).testBit i = v.testBit i := by
    intro i hi
    have := Nat.testBit_mod_two_pow v 4 i
    simp only [show (2 : Nat) ^ 4 = 16 from rfl] at this
    rw [this]; simp [hi]
  unfold bitset4
  rw [h 3 (by decide), h 2 (by decide), h 1 (by decide), h 0 (by decide)]

theorem bitset4_field (x : Fin 16) : bitset4 x.val = specBin4 x.val := by
  revert x
  decide

theorem bitset4_eq_specBin4 (v : Nat) : bitset4 v = specBin4 (v % 16) := by
  rw [bitset4_mod]
  exact bitset4_field ⟨v % 16, Nat.mod_lt _ (by decide)⟩

/-- Indexing into the concatenation of two-element blocks. -/
theorem getElem?_bind_pair {α β : Type} (f g : α → β) :
    ∀ (xs : List α) (i : Nat),
      (xs.flatMap (fun x => [f x, g x]))[2 * i]? = xs[i]?.map f ∧
      (xs.flatMap (fun x => [f x, g x]))[2 * i + 1]? = xs[i]?.map g := by
  intro xs
  induction xs with
  | nil => intro i; simp
  | cons x xs ih =>
    intro i
    cases i with
    | zero => simp
    | succ i =>
      have := ih i
      simp only [List.flatMap_cons, List.cons_append, List.nil_append]
      rw [show 2 * (i + 1) = (2 * i + 1) + 1 from by omega]
      simp only [List.getElem?_cons_succ]
      exact ⟨this.1, this.2⟩

theorem length_flatMap_pair {α β : Type} (f g : α → β) (xs : List α) :
    (xs.flatMap (fun x => [f x, g x])).length = 2 * xs.length := by
  induction xs with
  | nil => simp
  | cons x xs ih =>
    simp only [List.flatMap_cons, List.cons_append, List.nil_append, List.length_cons, ih]
    omega

theorem getElem?_finRange (n i : Nat) (h : i < n) : (List.finRange n)[i]? = some ⟨i, h⟩ := by
  rw [List.getElem?_eq_getElem (by simpa using h)]
  simp

theorem instrLines_length (p : Processor) :
    ((List.finRange 256).flatMap (instrLines p)).length = 512 := by
  have h := length_flatMap_pair
    (fun i : Fin 256 => instrPad i.val ++ toString (i.val <<< 1) ++ " : " ++
      bitset4 (p.InstrMemory i).opcode.val ++ " " ++ bitset4 (p.InstrMemory i).op1.val)
    (fun i : Fin 256 => instrPad i.val ++ toString ((i.val <<< 1) + 1) ++ " : " ++
      bitset4 (p.InstrMemory i).op2.val ++ " " ++ bitset4 (p.InstrMemory i).op3.val)
    (List.finRange 256)
  rw [List.length_finRange] at h
  exact h

theorem dumpLines_instr (p : Processor) (i : Fin 256) :
    (dumpLines p)[2 * i.val]? = some (specAddr4 (2 * i.val) ++ " : " ++
      specBin4 (p.InstrMemory i).opcode.val ++ " " ++ specBin4 (p.InstrMemory i).op1.val) ∧
    (dumpLines p)[2 * i.val + 1]? = some (specAddr4 (2 * i.val + 1) ++ " : " ++
      specBin4 (p.InstrMemory i).op2.val ++ " " ++ specBin4 (p.InstrMemory i).op3.val) := by
  have h := getElem?_bind_pair
    (fun i : Fin 256 => instrPad i.val ++ toString (i.val <<< 1) ++ " : " ++
      bitset4 (p.InstrMemory i).opcode.val ++ " " ++ bitset4 (p.InstrMemory i).op1.val)
    (fun i : Fin 256 => instrPad i.val ++ toString ((i.val <<< 1) + 1) ++ " : " ++
      bitset4 (p.InstrMemory i).op2.val ++ " " ++ bitset4 (p.InstrMemory i).op3.val)
    (List.finRange 256) i.val
  rw [getElem?_finRange 256 i.val i.isLt] at h
  have hl := instrLines_length p
  have hi := i.isLt
  unfold dumpLines
  rw [List.getElem?_append_left (by rw [hl]; omega),
    List.getElem?_append_left (by rw [hl]; omega)]
  constructor
  · refine h.1.trans ?_
    simp only [Option.map_some', Fin.eta]
    rw [instrPad_even, bitset4_field, bitset4_field]
  · refine h.2.trans ?_
    simp only [Option.map_some', Fin.eta]
    rw [instrPad_odd, bitset4_field, bitset4_field]

theorem dumpLines_data (p : Processor) (j : Fin 512) :
    (dumpLines p)[512 + j.val]? = some (specAddr4 (512 + j.val) ++ " : " ++
      specBin4 (p.DataMemory j / 16 % 16) ++ " " ++ specBin4 (p.DataMemory j % 16)) := by
  have hl := instrLines_length p
  unfold dumpLines
  rw [List.getElem?_append_right (by rw [hl]; omega), hl,
    show 512 + j.val - 512 = j.val from by omega, List.getElem?_map,
    getElem?_finRange 512 j.val j.isLt]
  simp only [Option.map_some', Fin.eta, dataLine]
  rw [dataPad_address, bitset4_eq_specBin4 (p.DataMemory j >>> 4),
    bitset4_eq_specBin4 (p.DataMemory j), Nat.shiftRight_eq_div_pow]

theorem specDigit_ne_newline (d : Nat) (h : d < 10) : specDigit d ≠ '\n' := by
  revert d
  decide

/-- C17: for every processor state the dump consists of exactly 1024 records, each
followed by a newline and none containing one; record `k` is `<address> : <g1> <g2>` with
`<address>` the decimal `k` zero-padded to the same width of 4 characters on every line
and `<g1>`, `<g2>` 4-digit binary strings: `(opcode, op1)` of slot `i` for `k = 2i`,
`(op2, op3)` of slot `i` for `k = 2i + 1`, and the high and low nibble of data byte `j`
for `k = 512 + j`. -/
theorem generateDump_layout (p : Processor) :
    generateDump p = String.join ((dumpLines p).map (fun l => l ++ "\n")) ∧
    (dumpLines p).length = 1024 ∧
    (∀ l ∈ dumpLines p, l.length = 16 ∧ '\n' ∉ l.data) ∧
    (∀ k : Nat, (specAddr4 k).length = 4) ∧ (∀ x : Nat, (specBin4 x).length = 4) ∧
    (∀ i : Fin 256,
      (dumpLines p)[2 * i.val]? = some (specAddr4 (2 * i.val) ++ " : " ++
        specBin4 (p.InstrMemory i).opcode.val ++ " " ++ specBin4 (p.InstrMemory i).op1.val) ∧
      (dumpLines p)[2 * i.val + 1]? = some (specAddr4 (2 * i.val + 1) ++ " : " ++
        specBin4 (p.InstrMemory i).op2.val ++ " " ++ specBin4 (p.InstrMemory i).op3.val)) ∧
    (∀ j : Fin 512,
      (dumpLines p)[512 + j.val]? = some (specAddr4 (512 + j.val) ++ " : " ++
        specBin4 (p.DataMemory j / 16 % 16) ++ " " ++ specBin4 (p.DataMemory j % 16))) := by
  have hlen : (dumpLines p).length = 1024 := by
    unfold dumpLines
    rw [List.length_append, instrLines_length, List.length_map, List.length_finRange]
  have hshape : ∀ (k a b : Nat), (specAddr4 k ++ " : " ++ specBin4 a ++ " " ++ specBin4 b).length
      = 16 ∧ '\n' ∉ (specAddr4 k ++ " : " ++ specBin4 a ++ " " ++ specBin4 b).data := by
    intro k a b
    constructor
    · rw [String.length_append, String.length_append, String.length_append,
        String.length_append]
      rfl
    · have d1 := specDigit_ne_newline (k / 1000 % 10) (by omega)
      have d2 := specDigit_ne_newline (k / 100 % 10) (by omega)
      have d3 := specDigit_ne_newline (k / 10 % 10) (by omega)
      have d4 := specDigit_ne_newline (k % 10) (by omega)
      have a1 := specDigit_ne_newline (a / 8 % 2) (by omega)
      have a2 := specDigit_ne_newline (a / 4 % 2) (by omega)
      have a3 := specDigit_ne_newline (a / 2 % 2) (by omega)
      have a4 := specDigit_ne_newline (a % 2) (by omega)
      have b1 := specDigit_ne_newline (b / 8 % 2) (by omega)
      have b2 := specDigit_ne_newline (b / 4 % 2) (by omega)
      have b3 := specDigit_ne_newline (b / 2 % 2) (by omega)
      have b4 := specDigit_ne_newline (b % 2) (by omega)
      simp only [specAddr4, specBin4, String.data_append, List.mem_append, List.mem_cons,
        List.mem_singleton, List.not_mem_nil, or_false, not_or]
      refine ⟨⟨⟨⟨⟨Ne.symm d1, Ne.symm d2, Ne.symm d3, Ne.symm d4⟩, ?_⟩,
        ⟨Ne.symm a1, Ne.symm a2, Ne.symm a3, Ne.symm a4⟩⟩, ?_⟩,
        ⟨Ne.symm b1, Ne.symm b2, Ne.symm b3, Ne.symm b4⟩⟩
      · decide
      · decide
  refine ⟨rfl, hlen, ?_, fun k => rfl, fun x => rfl, dumpLines_instr p, dumpLines_data p⟩
  intro l hl
  obtain ⟨k, hk, hkl⟩ := List.getElem_of_mem hl
  rw [hlen] at hk
  have hsome : (dumpLines p)[k]? = some l := by
    rw [List.getElem?_eq_getElem (by rw [hlen]; exact hk), hkl]
  by_cases h512 : k < 512
  · obtain ⟨h0, h1⟩ := dumpLines_instr p ⟨k / 2, by omega⟩
    rcases Nat.mod_two_eq_zero_or_one k with hm | hm
    · have e : 2 * (k / 2) = k := by omega
      simp only [e] at h0
      rw [hsome] at h0
      rw [Option.some.inj h0]
      exact hshape _ _ _
    · have e : 2 * (k / 2) + 1 = k := by omega
      simp only [e] at h1
      rw [hsome] at h1
      rw [Option.some.inj h1]
      exact hshape _ _ _
  · have h2 := dumpLines_data p ⟨k - 512, by omega⟩
    have e : 512 + (k - 512) = k := by omega
    simp only [e] at h2
    rw [hsome] at h2
    rw [Option.some.inj h2]
    exact hshape _ _ _

/-- What `dload` returns for an in-range offset: the two addressed cells hold the high
and the low byte of the 16-bit pattern, everything else is unchanged. -/
theorem dload_frame (p : Processor) (addr : MemoryAddress) (v : Int)
    (ho : addr.address.val + 1 < 512) :
    ∃ q, dload p addr v = some q ∧
      q.DataMemory addr.address = toUShort v / 256 ∧
      q.DataMemory ⟨addr.address.val + 1, ho⟩ = toUShort v % 256 ∧
      q.RegisterFile = p.RegisterFile ∧ q.InstrMemory = p.InstrMemory ∧ q.PC = p.PC := by
  have hne : addr.address ≠ ⟨addr.address.val + 1, ho⟩ := by
    intro h; have := congrArg Fin.val h; simp at this
  refine ⟨_, dload_eq p addr v ho, ?_, ?_, rfl, rfl, rfl⟩
  · simp only [Function.update_noteq hne, Function.update_same]
  · simp only [Function.update_same]

/-- C13: end-to-end load scenario.  After the loader stores `0x1234` at absolute address
600 (`dload` at data offset 88) and loads the program `LD R0, Rb, Ro; HLT`, with
`R[b] + R[o] = 600`, the run from `PC = 0` halts after 2 iterations with `R0 = 0x1234`,
the data memory is the loaded one, and in the dump of the final state the record for
address 600 is `0600 : 0001 0010` and the one for 601 is `0601 : 0011 0100`. -/
theorem scenario_load_and_dump (p0 : Processor) (b o : Fin 16)
    (hpc : p0.PC.address.val = 0)
    (hsum : p0.RegisterFile b + p0.RegisterFile o = 600) :
    ∃ p1, dload p0 (MemoryAddress.make 1 (600 - 512)) 0x1234 = some p1 ∧
      ∃ final,
        (∀ fuel, 2 ≤ fuel →
          start fuel (loadInstructions p1 0 [(8, 0, (b.val : Int), (o.val : Int)), (14, 0, 0, 0)])
            = Outcome.halted final 2) ∧
        final.RegisterFile 0 = 0x1234 ∧
        final.DataMemory = p1.DataMemory ∧
        (dumpLines final)[600]? = some "0600 : 0001 0010" ∧
        (dumpLines final)[601]? = some "0601 : 0011 0100" := by
  have haddr : MemoryAddress.make 1 (600 - 512) = ⟨1, 88⟩ := by decide
  obtain ⟨p1, hd, h88', h89', hR1, _, hPC1⟩ := dload_frame p0 ⟨1, 88⟩ 0x1234 (by decide)
  rw [haddr]
  refine ⟨p1, hd, ?_⟩
  have h88 : p1.DataMemory 88 = 18 := h88'.trans (by decide)
  have h89 : p1.DataMemory 89 = 52 := h89'.trans (by decide)
  generalize hp : loadInstructions p1 0 [(8, 0, (b.val : Int), (o.val : Int)), (14, 0, 0, 0)] = p
  have hb : toField4 (b.val : Int) = b := by
    apply Fin.ext; simp only [toField4]; omega
  have ho : toField4 (o.val : Int) = o := by
    apply Fin.ext; simp only [toField4]; omega
  have hI0 : p.InstrMemory 0 = ⟨8, 0, b, o⟩ := by
    rw [← hp]
    simp [loadInstructions, iload, MemoryAddress.make, toAddress, Instruction.make, hb, ho]
    decide
  have hI1 : (p.InstrMemory 1).opcode.val = HLT := by
    rw [← hp]
    simp [loadInstructions, iload, MemoryAddress.make, toAddress, Instruction.make]
    decide
  have hRp : p.RegisterFile = p0.RegisterFile := by
    rw [← hp, ← hR1]
    simp [loadInstructions, iload, MemoryAddress.make, toAddress]
  have hDp : p.DataMemory = p1.DataMemory := by
    rw [← hp]
    simp [loadInstructions, iload, MemoryAddress.make, toAddress]
  have hPCp : p.PC.address.val = 0 := by
    rw [← hpc, ← hPC1, ← hp]
    simp [loadInstructions, iload, MemoryAddress.make, toAddress]
  have hfi : fetchIndex p = 0 := by
    apply Fin.ext; simp [fetchIndex, hPCp]
  have hf : fetch p = ⟨8, 0, b, o⟩ := by
    unfold fetch; rw [hfi]; exact hI0
  have hop : (fetch p).opcode.val = LD := by rw [hf]; rfl
  have e : toUShort (p.RegisterFile (fetch p).op2 + p.RegisterFile (fetch p).op3 - 512)
      = 88 := by
    rw [hf, hRp]
    dsimp only
    rw [hsum]; decide
  have hr : toUShort (p.RegisterFile (fetch p).op2 + p.RegisterFile (fetch p).op3 - 512) + 1
      < 512 := by rw [e]; decide
  have hc := cycle_LD_eq p hop hr
  simp only [e] at hc
  have hx : ((p.DataMemory ⟨88, by decide⟩ <<< 8) ||| p.DataMemory ⟨88 + 1, by decide⟩ : Nat)
      = 4660 := by
    rw [hDp]
    have e88 : p1.DataMemory ⟨88, by decide⟩ = 18 := h88
    have e89 : p1.DataMemory ⟨88 + 1, by decide⟩ = 52 := h89
    rw [e88, e89]; decide
  rw [hx, hf] at hc
  dsimp only at hc
  generalize hq1 : writeReg p 0 ((4660 : Nat) : Int) = q1 at hc
  have hq1PC : q1.PC.address.val = 2 := by
    rw [← hq1, (writeReg_frame p 0 _).2.2.2.2, hPCp]
  have hq1IM : q1.InstrMemory = p.InstrMemory := by rw [← hq1]; rfl
  have hq1IR : q1.IR = 0 := by rw [← hq1, ← hfi]; rfl
  have hq1R : q1.RegisterFile 0 = 4660 := by
    rw [← hq1, (writeReg_frame p 0 _).1]; decide
  have hq1D : q1.DataMemory = p.DataMemory := by rw [← hq1]; rfl
  have hfi1 : fetchIndex q1 = 1 := by
    apply Fin.ext; simp [fetchIndex, hq1PC]
  have hf1 : (fetch q1).opcode.val = HLT := by
    unfold fetch; rw [hfi1, hq1IM]; exact hI1
  have hc1 := cycle_HLT_eq q1 hf1
  have hcont1 : continues q1 = true := by
    simp [continues, hq1IR, hq1IM, hI0]
    decide
  have hstop : continues (advance q1) = false := by
    have e1 : (advance q1).InstrMemory (advance q1).IR = fetch q1 := rfl
    simp [continues, e1, hf1]
  have hit1 : iterate 1 p = some q1 := by simp [iterate, hc]
  have hit2 : iterate 2 p = some (advance q1) := by
    rw [iterate_succ_right, hit1]; exact hc1
  have hfinD : (advance q1).DataMemory = p1.DataMemory := by
    show q1.DataMemory = _
    rw [hq1D, hDp]
  refine ⟨advance q1, ?_, hq1R, hfinD, ?_, ?_⟩
  · intro fuel hfuel
    exact (start_outcomes 1 p (advance q1)
      (fun j hj => by
        have : j = 0 := by omega
        subst this
        exact ⟨q1, hit1, hcont1⟩) hit2 hstop fuel).2 hfuel
  · have h := dumpLines_data (advance q1) 88
    rw [hfinD, h88] at h
    exact h.trans (by decide)
  · have h := dumpLines_data (advance q1) 89
    rw [hfinD, h89] at h
    exact h.trans (by decide)

/-- C13 (instance): with `R1 = 600`, `R2 = 0` and the program `LD R0, R1, R2; HLT`, the
scenario ends with `R0 = 0x1234` and the dump record `0600 : 0001 0010`. -/
theorem scenario_load_and_dump_witness :
    (loadRegisters Processor.init (fun i => if i = 1 then 600 else 0)).RegisterFile 1 +
      (loadRegisters Processor.init (fun i => if i = 1 then 600 else 0)).RegisterFile 2 = 600 ∧
    ∃ p1 final,
      dload (loadRegisters Processor.init (fun i => if i = 1 then 600 else 0))
        (MemoryAddress.make 1 (600 - 512)) 0x1234 = some p1 ∧
      start 2 (loadInstructions p1 0 [(8, 0, 1, 2), (14, 0, 0, 0)]) = Outcome.halted final 2 ∧
      final.RegisterFile 0 = 0x1234 ∧
      (dumpLines final)[600]? = some "0600 : 0001 0010" ∧
      (dumpLines final)[601]? = some "0601 : 0011 0100" := by
  refine ⟨by decide, ?_⟩
  obtain ⟨p1, hp1, final, hrun, hr0, _, hl0, hl1⟩ := scenario_load_and_dump
    (loadRegisters Processor.init (fun i => if i = 1 then 600 else 0)) 1 2
    (by decide) (by decide)
  exact ⟨p1, final, hp1, hrun 2 (le_refl 2), hr0, hl0, hl1⟩


end ProcSim
